import Mathlib

/-!
Verification of the nrrd-rs header grammar engine and payload codec.

The Rust source is shallowly embedded: header lines are lists of characters,
machine integers are `Nat`/`Int` with explicit range guards where the Rust
code parses fixed-width integers, panics are modelled by `Option`/`none`,
and file-system effects are modelled as explicit traces of I/O actions.
-/

set_option synthInstance.maxSize 2000

namespace NrrdRs

/-- A header line, as a list of characters (Rust works on `&str` slices;
all inputs exercised here are ASCII so characters and bytes coincide). -/
abbrev Line := List Char

/-! ### Decimal printing and parsing

The Rust code renders integers with `format!`/`Display` (plain decimal) and
parses them with `str::parse::<uN/iN>`.  We model printing by `decRepr`
(the base-10 digit expansion) and parsing by `parseNat` (all-digit strings,
with an explicit upper bound standing for the fixed integer width).
`decRepr` uses structural fuel so that it reduces inside the kernel. -/

/-- Reversed base-10 digits of `n` (as numbers), with structural fuel. -/
def digitsRevGo : Nat → Nat → List Nat
  | 0, _ => []
  | f + 1, n => if n = 0 then [] else n % 10 :: digitsRevGo f (n / 10)

/-- Decimal rendering of a natural number, as characters. -/
def decRepr (n : Nat) : Line :=
  if n = 0 then ['0'] else ((digitsRevGo n n).reverse).map Nat.digitChar

/-- Numeric value of a digit-character list (most significant first). -/
def decVal (l : Line) : Nat :=
  l.foldl (fun a c => 10 * a + (c.toNat - 48)) 0

/-- Model of `str::parse::<usize>` (and narrower widths via `bound`):
succeeds on a non-empty all-digit string whose value is `< bound`.
(The optional leading `+` accepted by Rust is not modelled; no claim
exercises it.) -/
def parseNatLt (bound : Nat) (l : Line) : Option Nat :=
  if l ≠ [] ∧ l.all Char.isDigit ∧ decVal l < bound then some (decVal l) else none

/-- Model of `i32`/`isize` rendering by `Display`: a minus sign followed by
the decimal magnitude. -/
def intRepr (v : Int) : Line :=
  if v < 0 then '-' :: decRepr v.natAbs else decRepr v.toNat

/-- Model of `str::parse::<isize>` (signed, two's-complement width `w`):
an optional minus sign followed by digits, in `[-2^(w-1), 2^(w-1))`. -/
def parseIntW (w : Nat) (l : Line) : Option Int :=
  match l with
  | c :: rest =>
    if c = '-' then (parseNatLt (2 ^ (w - 1) + 1) rest).map (fun n => -(n : Int))
    else (parseNatLt (2 ^ (w - 1)) (c :: rest)).map Int.ofNat
  | [] => none

/-! ### Line utilities: whitespace, trimming, splitting, substring search -/

/-- Whitespace test used by Rust's `trim`/`split_ascii_whitespace`
(all exercised inputs are ASCII). -/
def ws (c : Char) : Bool := c.isWhitespace

/-- Model of `str::trim`. -/
def trimChars (l : Line) : Line :=
  ((l.dropWhile ws).reverse.dropWhile ws).reverse

/-- Model of `str::split_ascii_whitespace` (accumulator holds the current
token reversed). -/
def splitWSAux : Line → Line → List Line
  | acc, [] => if acc.isEmpty then [] else [acc.reverse]
  | acc, c :: t =>
    if ws c then
      if acc.isEmpty then splitWSAux [] t else acc.reverse :: splitWSAux [] t
    else splitWSAux (c :: acc) t

def splitWS (l : Line) : List Line := splitWSAux [] l

/-- Model of `Vec::join(" ")`. -/
def joinSp : List Line → Line
  | [] => []
  | [x] => x
  | x :: y :: t => x ++ ' ' :: joinSp (y :: t)

/-- Suffix of `l` after the first occurrence of `p` (model of Rust
`str::find(pat)` followed by slicing at `idx + pat.len()`). -/
def findAfter (p : Line) : Line → Option Line
  | [] => if p.isPrefixOf ([] : Line) then some [] else none
  | c :: t =>
    if p.isPrefixOf (c :: t) then some ((c :: t).drop p.length) else findAfter p t

/-- Split `l` at the first occurrence of `p`: the part strictly before and
the part strictly after. -/
def splitFirst (p : Line) : Line → Option (Line × Line)
  | [] => if p.isPrefixOf ([] : Line) then some ([], []) else none
  | c :: t =>
    if p.isPrefixOf (c :: t) then some ([], (c :: t).drop p.length)
    else (splitFirst p t).map (fun pr => (c :: pr.1, pr.2))

/-! ### Field types (header_defs.rs) -/

/-- `DType` (source: `enum DType`; the `block` variant is written `Block` in
`header_defs.rs` and referred to as `block` in `lib.rs`). -/
inductive DType
  | int8 | uint8 | int16 | uint16 | int32 | uint32 | int64 | uint64
  | f32 | f64 | block

deriving DecidableEq

/-- `DType::size` (`size_of` of the corresponding Rust primitive;
1 as a placeholder for `block`). -/
def DType.size : DType → Nat
  | .int8 => 1 | .uint8 => 1 | .int16 => 2 | .uint16 => 2
  | .int32 => 4 | .uint32 => 4 | .int64 => 8 | .uint64 => 8
  | .f32 => 4 | .f64 => 8 | .block => 1

inductive Encoding
  | raw | txt | hex | rawgz | rawbz2

deriving DecidableEq

inductive Endian
  | Big | Little

deriving DecidableEq

/-- `ByteSkip`: a non-negative byte count or the tail-anchored sentinel
(source variant `rev`). -/
inductive ByteSkip
  | skip (n : Nat)
  | rev

deriving DecidableEq

/-- `ByteSkip::to_skip`. -/
def ByteSkip.toSkip : ByteSkip → Nat
  | .skip n => n
  | .rev => 0

/-- `ByteSkip::read_tail`. -/
def ByteSkip.readTail : ByteSkip → Bool
  | .skip _ => false
  | .rev => true

/-- `DataFile` (source: `enum DataFile`; the explicit-list variant is named
`List` in the source, `FileList` here to avoid clashing with `List`). -/
inductive DataFile
  | SingleFile (filename : Line)
  | FileFormat (fmtString : Line) (min max step : Int) (subDim : Option Nat)
  | FileList (subDim : Option Nat) (filePaths : List Line)

deriving DecidableEq

/-! ### Pattern constants (the literal `HeaderDef::patterns` of each field;
none contains a regex metacharacter, so the anchored `RegexSet` match of
`HeaderDef::matches` is exactly a prefix test). -/

def magicPat : Line := "NRRD".toList

def commentPat : Line := "#".toList

def kvSep : Line := ":=".toList

def dimensionPat : Line := "dimension: ".toList

def typePat : Line := "type: ".toList

def blockSizePat1 : Line := "block size: ".toList

def blockSizePat2 : Line := "blocksize: ".toList

def encodingPat : Line := "encoding: ".toList

def endianPat : Line := "endian: ".toList

def contentPat : Line := "content: ".toList

def minPat : Line := "min: ".toList

def maxPat : Line := "max: ".toList

def oldMaxPat1 : Line := "old max: ".toList

def oldMaxPat2 : Line := "oldmax: ".toList

def dataFilePat1 : Line := "data file: ".toList

def dataFilePat2 : Line := "datafile: ".toList

def lineSkipPat1 : Line := "line skip: ".toList

def lineSkipPat2 : Line := "lineskip: ".toList

def byteSkipPat1 : Line := "byte skip: ".toList

def byteSkipPat2 : Line := "byteskip: ".toList

def sampleUnitsPat1 : Line := "sample units: ".toList

def sampleUnitsPat2 : Line := "sampleunits: ".toList

def sizesPat : Line := "sizes: ".toList

def spacingsPat : Line := "spacings: ".toList

def thicknessesPat : Line := "thicknesses: ".toList

def axisMinsPat1 : Line := "axis mins: ".toList

def axisMinsPat2 : Line := "axismins: ".toList

def axisMaxsPat1 : Line := "axis maxs: ".toList

def axisMaxsPat2 : Line := "axismaxs: ".toList

def centeringsPat1 : Line := "centerings: ".toList

def centeringsPat2 : Line := "centers: ".toList

def labelsPat : Line := "labels: ".toList

def unitsPat : Line := "units: ".toList

def kindsPat : Line := "kinds: ".toList

def spacePat : Line := "space: ".toList

def spaceDimensionPat : Line := "space dimension: ".toList

def spaceUnitsPat : Line := "space units: ".toList

def spaceOriginPat : Line := "space origin: ".toList

def spaceDirectionsPat : Line := "space directions: ".toList

/-- `HeaderDef::idx`, returning the remainder of the line after the first
occurrence of the first pattern that occurs in it. -/
def fieldIdx (pats : List Line) (l : Line) : Option Line :=
  match pats with
  | [] => none
  | p :: ps =>
    match findAfter p l with
    | some r => some r
    | none => fieldIdx ps l

/-- A typed field handler: its literal line patterns and its `FromStr`
translation (`none` models a parse panic). -/
structure FieldDef (α : Type) where
  patterns : List Line
  fromStr : Line → Option α

/-- `HeaderDef::matches` (anchored literal patterns = prefix test). -/
def fmatches {α : Type} (d : FieldDef α) (l : Line) : Bool :=
  d.patterns.any (fun p => p.isPrefixOf l)

/-! ### Per-field `FromStr` translations -/

/-- `Magic::from_str`: the remainder after "NRRD", trimmed, parsed as `u8`. -/
def magicFromStr (l : Line) : Option Nat :=
  (fieldIdx [magicPat] l).bind (fun r => parseNatLt 256 (trimChars r))

/-- `Dimension::from_str` (`parse::<usize>`). -/
def dimensionFromStr (l : Line) : Option Nat :=
  (fieldIdx [dimensionPat] l).bind (fun r => parseNatLt (2 ^ 64) (trimChars r))

/-- The `DType::from_str` vocabulary (all historical spellings). -/
def dtypeOfToken (t : Line) : Option DType :=
  if t = "signed char".toList ∨ t = "int8".toList ∨ t = "int8_t".toList then
    some .int8
  else if t = "uchar".toList ∨ t = "unsigned char".toList ∨ t = "uint8".toList ∨
      t = "uint8_t".toList then some .uint8
  else if t = "short".toList ∨ t = "short int".toList ∨ t = "signed short".toList ∨
      t = "signed short int".toList ∨ t = "int16".toList ∨ t = "int16_t".toList then
    some .int16
  else if t = "ushort".toList ∨ t = "unsigned short".toList ∨
      t = "unsigned short int".toList ∨ t = "uint16".toList ∨
      t = "uint16_t".toList then some .uint16
  else if t = "int".toList ∨ t = "signed int".toList ∨ t = "int32".toList ∨
      t = "int32_t".toList then some .int32
  else if t = "uint".toList ∨ t = "unsigned int".toList ∨ t = "uint32".toList ∨
      t = "uint32_t".toList then some .uint32
  else if t = "longlong".toList ∨ t = "long long".toList ∨
      t = "long long int".toList ∨ t = "signed long long".toList ∨
      t = "signed long long int".toList ∨ t = "int64".toList ∨
      t = "int64_t".toList then some .int64
  else if t = "ulonglong".toList ∨ t = "unsigned long long".toList ∨
      t = "unsigned long long int".toList ∨ t = "uint64".toList ∨
      t = "uint64_t".toList then some .uint64
  else if t = "float".toList then some .f32
  else if t = "double".toList then some .f64
  else if t = "block".toList then some .block
  else none

def dtypeFromStr (l : Line) : Option DType :=
  (fieldIdx [typePat] l).bind (fun r => dtypeOfToken (trimChars r))

/-- `BlockSize::from_str` (`parse::<usize>`). -/
def blockSizeFromStr (l : Line) : Option Nat :=
  (fieldIdx [blockSizePat1, blockSizePat2] l).bind
    (fun r => parseNatLt (2 ^ 64) (trimChars r))

/-- `Encoding::from_str` vocabulary (after ASCII lowercasing). -/
def encodingOfToken (t : Line) : Option Encoding :=
  if t = "raw".toList then some .raw
  else if t = "txt".toList ∨ t = "text".toList ∨ t = "ascii".toList then some .txt
  else if t = "gz".toList ∨ t = "gzip".toList then some .rawgz
  else if t = "bz2".toList ∨ t = "bzip2".toList then some .rawbz2
  else if t = "hex".toList then some .hex
  else none

def encodingFromStr (l : Line) : Option Encoding :=
  (fieldIdx [encodingPat] l).bind
    (fun r => encodingOfToken ((trimChars r).map Char.toLower))

/-- `Endian::from_str` (after lowercasing). -/
def endianFromStr (l : Line) : Option Endian :=
  (fieldIdx [endianPat] l).bind (fun r =>
    let t := (trimChars r).map Char.toLower
    if t = "big".toList then some Endian.Big
    else if t = "little".toList then some Endian.Little
    else none)

/-- The per-token loop of `Sizes::from_str`: each token parses as `usize`
and must be positive (`assert!(size > 0)`). -/
def parseSizes : List Line → Option (List Nat)
  | [] => some []
  | t :: ts =>
    match parseNatLt (2 ^ 64) t with
    | none => none
    | some n => if 0 < n then (parseSizes ts).map (fun l => n :: l) else none

def sizesFromStr (l : Line) : Option (List Nat) :=
  (fieldIdx [sizesPat] l).bind (fun r => parseSizes (splitWS (trimChars r)))

/-- `LineSkip::from_str` (`parse::<usize>`). -/
def lineSkipFromStr (l : Line) : Option Nat :=
  (fieldIdx [lineSkipPat1, lineSkipPat2] l).bind
    (fun r => parseNatLt (2 ^ 64) (trimChars r))

/-- `ByteSkip::from_str`: `parse::<isize>`, any negative value becomes the
tail sentinel `rev`, otherwise a byte count. -/
def byteSkipFromStr (l : Line) : Option ByteSkip :=
  (fieldIdx [byteSkipPat1, byteSkipPat2] l).bind (fun r =>
    (parseIntW 64 (trimChars r)).map
      (fun v => if v < 0 then ByteSkip.rev else ByteSkip.skip v.toNat))

/-! ### Data-file directive: parsing and path expansion -/

def dataFilePats : List Line := [dataFilePat1, dataFilePat2]

def dataFileMatches (l : Line) : Bool := dataFilePats.any (fun p => p.isPrefixOf l)

/-- A whole token matching the regex fragment `-?\d+`. -/
def isIntToken (t : Line) : Bool :=
  match t with
  | '-' :: ds => !ds.isEmpty && ds.all Char.isDigit
  | ds => !ds.isEmpty && ds.all Char.isDigit

/-- `parse::<i32>` of a matched integer token. -/
def parseI32 (t : Line) : Option Int := parseIntW 32 t

/-- Leftmost window of a token, three integer tokens, and an optional
fourth integer token: the numbered-sequence directive regex
`(\S+)\s+(-?\d+)\s+(-?\d+)\s+(-?\d+)(?:\s+(-?\d+))?` at token granularity.
(Regex matches that split a token, e.g. a trailing non-digit glued to the
last integer, are not modelled; no claim exercises them.) -/
def findFmtWindow : List Line → Option (Line × Line × Line × Line × Option Line)
  | t0 :: t1 :: t2 :: t3 :: rest =>
    if isIntToken t1 && isIntToken t2 && isIntToken t3 then
      some (t0, t1, t2, t3,
        match rest with
        | r :: _ => if isIntToken r then some r else none
        | [] => none)
    else findFmtWindow (t1 :: t2 :: t3 :: rest)
  | _ => none

def listTok : Line := "LIST".toList

/-- `DataFile::from_str`: try the numbered-sequence regex, then the
`LIST ?(\d)?` regex (searched anywhere), else a single file path. -/
def dataFileFromStr (l : Line) : Option DataFile :=
  match fieldIdx dataFilePats l with
  | none => none
  | some rest0 =>
    let s := trimChars rest0
    match findFmtWindow (splitWS s) with
    | some (t0, t1, t2, t3, osub) =>
      match parseI32 t1, parseI32 t2, parseI32 t3 with
      | some mn, some mx, some st =>
        match osub with
        | some t4 =>
          (parseNatLt (2 ^ 64) t4).map
            (fun sd => DataFile.FileFormat t0 mn mx st (some sd))
        | none => some (DataFile.FileFormat t0 mn mx st none)
      | _, _, _ => none
    | none =>
      match findAfter listTok s with
      | some after =>
        let subDim : Option Nat :=
          match after with
          | ' ' :: c :: _ => if c.isDigit then some (c.toNat - 48) else none
          | c :: _ => if c.isDigit then some (c.toNat - 48) else none
          | [] => none
        some (DataFile.FileList subDim [])
      | none => some (DataFile.SingleFile s)

/-- The `sprintf!(fmt_string, i)` call, modelled as substitution of the
decimal rendering of `i` for the first `%d` directive (width/flag
directives are not exercised by any claim). -/
def sprintfD (fmt : Line) (i : Int) : Line :=
  match splitFirst ('%' :: ['d']) fmt with
  | some (before, after) => before ++ intRepr i ++ after
  | none => fmt

/-- Rust `(a..=b).step_by(s)` (with `s ≥ 1` at every call site), via
structural fuel `b + 1 - a`. -/
def stepByGo (s : Nat) : Nat → Nat → Nat → List Nat
  | 0, _, _ => []
  | f + 1, a, b => if a ≤ b then a :: stepByGo s f (a + s) b else []

def stepByIncl (a b s : Nat) : List Nat := stepByGo s (b + 1 - a) a b

/-- Rust `(a..=b).rev().step_by(s)` (with `s ≥ 1`): `b, b - s, …`,
stopping above `a`. -/
def stepByRevGo (s : Nat) : Nat → Nat → Nat → List Nat
  | 0, _, _ => []
  | f + 1, a, b =>
    if a ≤ b then
      b :: (if a + s ≤ b then stepByRevGo s f a (b - s) else [])
    else []

def stepByRevIncl (a b s : Nat) : List Nat := stepByRevGo s (b + 1 - a) a b

/-- `DataFile::paths`: single file, numbered sequence (ascending loop over
`min.abs()..=max.abs()` when `step > 0`, loop over
`(max.abs()..=min.abs()).rev()` when `step < 0`, nothing when `step == 0`),
or the stored explicit list. -/
def DataFile.paths : DataFile → List Line
  | .SingleFile filename => [filename]
  | .FileFormat fmt mn mx st _ =>
    (if 0 < st then
      (stepByIncl mn.natAbs mx.natAbs st.toNat).map (fun i => sprintfD fmt i)
     else []) ++
    (if st < 0 then
      (stepByRevIncl mx.natAbs mn.natAbs st.natAbs).map (fun i => sprintfD fmt i)
     else [])
  | .FileList _ ps => ps

/-! ### Key-value and comment sweeps (lib.rs) -/

/-- `Value::matches_key_value`: the un-anchored `:=` pattern occurs
somewhere in the line. -/
def matchesKeyValue (l : Line) : Bool := (findAfter kvSep l).isSome

/-- `Value::key`: everything before the first `:=`. -/
def keyOf (l : Line) : Line :=
  match splitFirst kvSep l with
  | some (b, _) => b
  | none => []

/-- `Value::from_str`: everything after the first `:=`. -/
def valOf (l : Line) : Line :=
  match splitFirst kvSep l with
  | some (_, a) => a
  | none => []

/-- `HashMap::insert` on the assoc-list model of the key-value map:
replace the binding if the key is present, else append it.  (The model
keeps one entry per key, like the Rust map; iteration order is irrelevant
to the claims, which sort on serialization.) -/
def insertKV (m : List (Line × Line)) (k v : Line) : List (Line × Line) :=
  if m.any (fun p => p.1 = k) then
    m.map (fun p => if p.1 = k then (k, v) else p)
  else m ++ [(k, v)]

/-- `read_key_values`: a retain-based sweep removing every `key:=value`
line (inserting it into the map, later lines overwriting earlier ones)
and keeping every other line in order. -/
def readKeyValuesGo (acc : List (Line × Line)) :
    List Line → List (Line × Line) × List Line
  | [] => (acc, [])
  | l :: ls =>
    if matchesKeyValue l then
      readKeyValuesGo (insertKV acc (keyOf l) (valOf l)) ls
    else
      let r := readKeyValuesGo acc ls
      (r.1, l :: r.2)

def readKeyValues (lines : List Line) : List (Line × Line) × List Line :=
  readKeyValuesGo [] lines

def commentMatches (l : Line) : Bool := commentPat.isPrefixOf l

/-- `Comment::from_str`: the value starts one character *after* the index
following `#` (so the character right after `#` is always dropped), and an
empty comment is an error. -/
def commentFromStr (l : Line) : Option Line :=
  match fieldIdx [commentPat] l with
  | none => none
  | some rest =>
    match rest with
    | [] => none
    | [_] => none
    | _ :: t => some t

/-- `Comment` `Display` (how `read_comments` stores each comment, via
`to_string`). -/
def commentDisplay (v : Line) : Line := '#' :: ' ' :: v

/-- `read_comments`: retain-based sweep; a comment line failing
`Comment::from_str` (empty comment) is removed but not recorded. -/
def readComments : List Line → List Line × List Line
  | [] => ([], [])
  | l :: ls =>
    if commentMatches l then
      let r := readComments ls
      (match commentFromStr l with
       | some v => commentDisplay v :: r.1
       | none => r.1, r.2)
    else
      let r := readComments ls
      (r.1, l :: r.2)

/-- `read_data_file`: find the first matching line; for the explicit-list
variant, every later line becomes a file path and `len - idx` lines are
popped from the end (so exactly the first `idx` lines survive); otherwise
just remove the directive line. -/
def readDataFile (lines : List Line) : Option (Option DataFile × List Line) :=
  match lines.findIdx? dataFileMatches with
  | none => some (none, lines)
  | some i =>
    match lines[i]? with
    | none => none
    | some l =>
      match dataFileFromStr l with
      | none => none
      | some df =>
        match df with
        | DataFile.FileList sd ps =>
          some (some (DataFile.FileList sd (ps ++ lines.drop (i + 1))),
            lines.take i)
        | _ => some (some df, lines.eraseIdx i)

/-! ### The header record (struct NRRD)

Fields whose typed payload no claim ever instantiates (the float-valued
scalars, the per-axis float/enum/quoted-string vectors and the space
fields) are modelled at whole-line granularity: their extraction keeps the
matched line and serialization re-emits it.  Every claim below only ever
constructs them as `none`, where this model and the Rust `FromStr`/
`Display` pair coincide (nothing is consumed, nothing is emitted). -/

structure NRRD where
  magic : Nat
  dimension : Nat
  dtype : DType
  block_size : Option Nat
  encoding : Encoding
  endian : Endian
  content : Option Line
  min : Option Line
  max : Option Line
  old_min : Option Line
  old_max : Option Line
  data_file : Option DataFile
  line_skip : Option Nat
  byte_skip : Option ByteSkip
  sample_units : Option Line
  sizes : List Nat
  spacings : Option Line
  thicknesses : Option Line
  axis_mins : Option Line
  axis_maxs : Option Line
  centerings : Option Line
  labels : Option Line
  units : Option Line
  kinds : Option Line
  space : Option Line
  space_dimension : Option Line
  space_units : Option Line
  space_origin : Option Line
  space_directions : Option Line
  key_vals : List (Line × Line)
  comments : List Line

deriving DecidableEq

/-- `Sizes::n_elements` (product of the per-axis sizes). -/
def NRRD.nElements (h : NRRD) : Nat := h.sizes.prod

/-- `NRRD::element_size`: the block size when the type is `block`
(`expect` panics when it is absent, modelled by `none`), else the
dtype's byte width. -/
def NRRD.elementSizeQ (h : NRRD) : Option Nat :=
  match h.dtype with
  | .block => h.block_size
  | t => some t.size

/-- `NRRD::expected_bytes` = `n_elements * element_size`. -/
def NRRD.expectedBytesQ (h : NRRD) : Option Nat :=
  h.elementSizeQ.map (fun es => h.nElements * es)

/-! ### Field handler table -/

def magicDef : FieldDef Nat := ⟨[magicPat], magicFromStr⟩

def dimensionDef : FieldDef Nat := ⟨[dimensionPat], dimensionFromStr⟩

def dtypeDef : FieldDef DType := ⟨[typePat], dtypeFromStr⟩

def blockSizeDef : FieldDef Nat := ⟨[blockSizePat1, blockSizePat2], blockSizeFromStr⟩

def encodingDef : FieldDef Encoding := ⟨[encodingPat], encodingFromStr⟩

def endianDef : FieldDef Endian := ⟨[endianPat], endianFromStr⟩

def sizesDef : FieldDef (List Nat) := ⟨[sizesPat], sizesFromStr⟩

def lineSkipDef : FieldDef Nat := ⟨[lineSkipPat1, lineSkipPat2], lineSkipFromStr⟩

def byteSkipDef : FieldDef ByteSkip := ⟨[byteSkipPat1, byteSkipPat2], byteSkipFromStr⟩

/-- Handler for a field modelled at line granularity (see the `NRRD`
doc comment). -/
def rawDef (pats : List Line) : FieldDef Line := ⟨pats, fun l => some l⟩

def contentDef : FieldDef Line := rawDef [contentPat]

def minDef : FieldDef Line := rawDef [minPat]

def maxDef : FieldDef Line := rawDef [maxPat]

/-- `OldMin::patterns` is `["min: "]` in the source (not `"old min: "`);
modelled verbatim. -/
def oldMinDef : FieldDef Line := rawDef [minPat]

def oldMaxDef : FieldDef Line := rawDef [oldMaxPat1, oldMaxPat2]

def sampleUnitsDef : FieldDef Line := rawDef [sampleUnitsPat1, sampleUnitsPat2]

def spacingsDef : FieldDef Line := rawDef [spacingsPat]

def thicknessesDef : FieldDef Line := rawDef [thicknessesPat]

def axisMinsDef : FieldDef Line := rawDef [axisMinsPat1, axisMinsPat2]

def axisMaxsDef : FieldDef Line := rawDef [axisMaxsPat1, axisMaxsPat2]

def centeringsDef : FieldDef Line := rawDef [centeringsPat1, centeringsPat2]

def labelsDef : FieldDef Line := rawDef [labelsPat]

def unitsDef : FieldDef Line := rawDef [unitsPat]

def kindsDef : FieldDef Line := rawDef [kindsPat]

def spaceDef : FieldDef Line := rawDef [spacePat]

def spaceDimensionDef : FieldDef Line := rawDef [spaceDimensionPat]

def spaceUnitsDef : FieldDef Line := rawDef [spaceUnitsPat]

def spaceOriginDef : FieldDef Line := rawDef [spaceOriginPat]

def spaceDirectionsDef : FieldDef Line := rawDef [spaceDirectionsPat]

/-! ### The assembler (lib.rs) -/

/-- `read_header_def`: scan the whole collection for the first matching
line; a matching line that fails its `FromStr` is a panic (`none`); a
found field is removed from the collection. -/
def readHeaderDef {α : Type} (d : FieldDef α) (lines : List Line) :
    Option (Option α × List Line) :=
  match lines.findIdx? (fun l => fmatches d l) with
  | none => some (none, lines)
  | some i =>
    match lines[i]? with
    | none => none
    | some l =>
      match d.fromStr l with
      | none => none
      | some v => some (some v, lines.eraseIdx i)

/-- `read_header_def(..).expect(..)`: a missing mandatory field panics. -/
def expectDef {α : Type} (d : FieldDef α) (lines : List Line) :
    Option (α × List Line) :=
  match readHeaderDef d lines with
  | some (some v, ls) => some (v, ls)
  | some (none, _) => none
  | none => none

/-- `NRRD::from_lines_minimal`: the six (or seven, for `block`) mandatory
fields, each located by `read_header_def`, in the fixed extraction
sequence. -/
def fromLinesMinimal (lines : List Line) : Option (NRRD × List Line) := do
  if lines.isEmpty then none
  else
    let (magic, l1) ← expectDef magicDef lines
    let (dim, l2) ← expectDef dimensionDef l1
    let (dt, l3) ← expectDef dtypeDef l2
    let (bs, l4) ←
      if dt = DType.block then
        (expectDef blockSizeDef l3).map (fun p => ((some p.1 : Option Nat), p.2))
      else pure ((none : Option Nat), l3)
    let (enc, l5) ← expectDef encodingDef l4
    let (endi, l6) ← expectDef endianDef l5
    let (sz, l7) ← expectDef sizesDef l6
    pure (⟨magic, dim, dt, bs, enc, endi, none, none, none, none, none, none,
      none, none, none, sz, none, none, none, none, none, none, none, none,
      none, none, none, none, none, [], []⟩, l7)

/-- One optional-field extraction step of `from_lines_full`: scan the
remaining lines with the handler, store the result through `set`
(propagating a parse panic). -/
def bindField {α : Type} (d : FieldDef α) (set : NRRD → Option α → NRRD)
    (st : Option (NRRD × List Line)) : Option (NRRD × List Line) :=
  match st with
  | none => none
  | some (h, ls) =>
    match readHeaderDef d ls with
    | none => none
    | some (v, ls2) => some (set h v, ls2)

/-- `NRRD::from_lines_full`: the minimal parse, then one whole-collection
scan per optional field in the source's order, then the key-value sweep,
the comment sweep, and the data-file resolution last. -/
def fromLinesFull (lines : List Line) : Option (NRRD × List Line) :=
  let st0 := fromLinesMinimal lines
  let st1 := bindField contentDef (fun h v => { h with content := v }) st0
  let st2 := bindField minDef (fun h v => { h with min := v }) st1
  let st3 := bindField maxDef (fun h v => { h with max := v }) st2
  let st4 := bindField oldMinDef (fun h v => { h with old_min := v }) st3
  let st5 := bindField oldMaxDef (fun h v => { h with old_max := v }) st4
  let st6 := bindField lineSkipDef (fun h v => { h with line_skip := v }) st5
  let st7 := bindField byteSkipDef (fun h v => { h with byte_skip := v }) st6
  let st8 := bindField sampleUnitsDef (fun h v => { h with sample_units := v }) st7
  let st9 := bindField spacingsDef (fun h v => { h with spacings := v }) st8
  let st10 := bindField thicknessesDef (fun h v => { h with thicknesses := v }) st9
  let st11 := bindField axisMinsDef (fun h v => { h with axis_mins := v }) st10
  let st12 := bindField axisMaxsDef (fun h v => { h with axis_maxs := v }) st11
  let st13 := bindField centeringsDef (fun h v => { h with centerings := v }) st12
  let st14 := bindField labelsDef (fun h v => { h with labels := v }) st13
  let st15 := bindField unitsDef (fun h v => { h with units := v }) st14
  let st16 := bindField kindsDef (fun h v => { h with kinds := v }) st15
  let st17 := bindField spaceDef (fun h v => { h with space := v }) st16
  let st18 := bindField spaceDimensionDef
    (fun h v => { h with space_dimension := v }) st17
  let st19 := bindField spaceUnitsDef (fun h v => { h with space_units := v }) st18
  let st20 := bindField spaceOriginDef (fun h v => { h with space_origin := v }) st19
  let st21 := bindField spaceDirectionsDef
    (fun h v => { h with space_directions := v }) st20
  match st21 with
  | none => none
  | some (h, ls) =>
    let r1 := readKeyValues ls
    let r2 := readComments r1.2
    match readDataFile r2.2 with
    | none => none
    | some (df, ls4) =>
      some ({ h with key_vals := r1.1, comments := r2.1, data_file := df }, ls4)

/-! ### Serialization (impl Display for NRRD) -/

def dtypeToken : DType → Line
  | .int8 => "int8".toList | .uint8 => "uint8".toList
  | .int16 => "int16".toList | .uint16 => "uint16".toList
  | .int32 => "int32".toList | .uint32 => "uint32".toList
  | .int64 => "int64".toList | .uint64 => "uint64".toList
  | .f32 => "float".toList | .f64 => "double".toList
  | .block => "block".toList

def encodingToken : Encoding → Line
  | .raw => "raw".toList | .txt => "txt".toList | .hex => "hex".toList
  | .rawgz => "gzip".toList | .rawbz2 => "bzip2".toList

def endianToken : Endian → Line
  | .Big => "big".toList | .Little => "little".toList

/-- Lexicographic byte order on keys (Rust `String` `Ord`). -/
def lineLe : Line → Line → Bool
  | [], _ => true
  | _ :: _, [] => false
  | a :: x, b :: y =>
    if a.toNat < b.toNat then true
    else if b.toNat < a.toNat then false
    else lineLe x y

/-- Stable insertion of one pair into a key-sorted list. -/
def insertSorted (x : Line × Line) : List (Line × Line) → List (Line × Line)
  | [] => [x]
  | y :: t => if lineLe y.1 x.1 then y :: insertSorted x t else x :: y :: t

/-- The `sort_by_key` call of `Display for NRRD` (stable sort by key),
as a kernel-computable insertion sort. -/
def sortKV (m : List (Line × Line)) : List (Line × Line) :=
  m.foldl (fun acc x => insertSorted x acc) []

def optRaw (o : Option Line) : List Line :=
  match o with
  | some l => [l]
  | none => []

/-- `Display for DataFile`, as header lines (the explicit-list variant
spans several lines). -/
def dfDisplayLines : DataFile → List Line
  | .SingleFile f => [dataFilePat1 ++ f]
  | .FileFormat fmt mn mx st sd =>
    match sd with
    | some d =>
      [dataFilePat1 ++ fmt ++ ' ' :: intRepr mn ++ ' ' :: intRepr mx ++
        ' ' :: intRepr st ++ ' ' :: decRepr d]
    | none =>
      [dataFilePat1 ++ fmt ++ ' ' :: intRepr mn ++ ' ' :: intRepr mx ++
        ' ' :: intRepr st]
  | .FileList sd ps =>
    match sd with
    | some d => (dataFilePat1 ++ listTok ++ ' ' :: decRepr d) :: ps
    | none => (dataFilePat1 ++ listTok) :: ps

/-- `impl Display for NRRD`: the fixed canonical emission order, one entry
per header line, absent optional fields omitted, key-values sorted by
key. -/
def serializeLines (h : NRRD) : List Line :=
  [magicPat ++ ("000".toList ++ decRepr h.magic)] ++
  h.comments ++
  [dimensionPat ++ decRepr h.dimension] ++
  [typePat ++ dtypeToken h.dtype] ++
  (match h.block_size with
   | some b => [blockSizePat1 ++ decRepr b]
   | none => []) ++
  [encodingPat ++ encodingToken h.encoding] ++
  [endianPat ++ endianToken h.endian] ++
  optRaw h.content ++ optRaw h.min ++ optRaw h.max ++
  optRaw h.old_min ++ optRaw h.old_max ++
  (match h.line_skip with
   | some n => [lineSkipPat1 ++ decRepr n]
   | none => []) ++
  (match h.byte_skip with
   | some (ByteSkip.skip n) => [byteSkipPat1 ++ decRepr n]
   | some ByteSkip.rev => [byteSkipPat1 ++ "-1".toList]
   | none => []) ++
  optRaw h.sample_units ++
  [sizesPat ++ joinSp (h.sizes.map decRepr)] ++
  optRaw h.spacings ++ optRaw h.thicknesses ++
  optRaw h.axis_mins ++ optRaw h.axis_maxs ++
  optRaw h.centerings ++ optRaw h.labels ++ optRaw h.units ++ optRaw h.kinds ++
  optRaw h.space ++ optRaw h.space_dimension ++ optRaw h.space_units ++
  optRaw h.space_origin ++ optRaw h.space_directions ++
  (sortKV h.key_vals).map (fun p => p.1 ++ kvSep ++ p.2) ++
  (match h.data_file with
   | some df => dfDisplayLines df
   | none => [])

/-! ### Payload codec (io.rs, read_payload)

Byte streams are `List Nat` (one entry per byte).  The reader is
deterministic: each `read` call returns `min(requested, remaining)` bytes
and `0` at end of stream, which is the behaviour of the `File`/decoder
readers the source uses. -/

/-- The skip loop of `read_with_skip`: discard `bytes_to_skip` bytes in
chunks of at most 8 KiB, panicking (`none`) when the stream ends first.
Fuel is the number of bytes still to skip (each iteration consumes at
least one). -/
def skipGo : Nat → List Nat → Nat → Option (List Nat)
  | 0, s, k => if k = 0 then some s else none
  | f + 1, s, k =>
    if k = 0 then some s
    else
      let n := min (min 8192 k) s.length
      if n = 0 then none
      else skipGo f (s.drop n) (k - n)

/-- The fill loop of `read_with_skip`: read into the remaining buffer
until it is full or the stream ends (EOF just breaks the loop), returning
the final buffer contents and the number of bytes written. -/
def fillGo : Nat → List Nat → List Nat → List Nat × Nat
  | 0, _, buf => (buf, 0)
  | f + 1, s, buf =>
    let n := min buf.length s.length
    if n = 0 then (buf, 0)
    else
      let r := fillGo f (s.drop n) (buf.drop n)
      (s.take n ++ r.1, n + r.2)

/-- `io::read_with_skip`: skip, then fill; the caller's buffer is passed
in (its untouched suffix survives). -/
def readWithSkip (s : List Nat) (buf : List Nat) (k : Nat) :
    Option (List Nat × Nat) :=
  match skipGo k s k with
  | none => none
  | some s2 => some (fillGo buf.length s2 buf)

/-- One step of `io::skip_lines`: drop bytes through the first newline
(EOF just stops). -/
def dropThroughNewline : List Nat → List Nat
  | [] => []
  | b :: t => if b = 10 then t else dropThroughNewline t

/-- `io::skip_lines` on the byte stream. -/
def skipLinesBytes : Nat → List Nat → List Nat
  | 0, s => s
  | n + 1, s => skipLinesBytes n (dropThroughNewline s)

/-- The attached-`raw` (non-tail) branch of `read_payload`, at byte level:
skip `line_skip` lines, then `read_raw` = `read_with_skip` into a
zero-initialized buffer of the expected size; the written-byte count
returned by `read_with_skip` is discarded, exactly as in the source. -/
def readAttachedRawPayload (expected lineSk byteSk : Nat)
    (stream : List Nat) : Option (List Nat) :=
  (readWithSkip (skipLinesBytes lineSk stream) (List.replicate expected 0)
    byteSk).map Prod.fst

/-! ### Control-flow trace of `read_payload`

File contents are outside the shallow embedding, so `read_payload` is
modelled by the ordered list of I/O actions it performs, plus the panic
message (if any) that ends it.  `fs` says which resolved paths exist
(`Path::exists`), `dir` is the header file's parent directory. -/

inductive Act
  | checkExists (p : Line)
  | openFile (p : Line)
  | skipLns (n : Nat)
  | rawRead (off len skip : Nat)
  | gzRead (off len skip : Nat)
  | bzRead (off len skip : Nat)
  | tailRead (len : Nat)

deriving DecidableEq

/-- `Path::is_relative` (Unix: not starting with a separator). -/
def isRelativePath (p : Line) : Bool :=
  match p with
  | '/' :: _ => false
  | _ => true

/-- `parent.join(p)` for a relative `p`, else `p` unchanged. -/
def resolvePath (dir p : Line) : Line :=
  if isRelativePath p then dir ++ '/' :: p else p

/-- The eager existence pass over the resolved paths (`Path::exists`
opens nothing); stops at (and reports) the first missing file. -/
def existenceChecks (fs : Line → Bool) : List Line → List Act × Bool
  | [] => ([], true)
  | p :: ps =>
    if fs p then
      (Act.checkExists p :: (existenceChecks fs ps).1, (existenceChecks fs ps).2)
    else ([Act.checkExists p], false)

/-- The read action a supported encoding performs on one chunk
(`none` = the `panic!("unsupported encoding")` arm). -/
def encAct (e : Encoding) (off len skip : Nat) : Option Act :=
  match e with
  | .raw => some (.rawRead off len skip)
  | .rawgz => some (.gzRead off len skip)
  | .rawbz2 => some (.bzRead off len skip)
  | _ => none

/-- The per-file loop of the detached branch: for the `i`-th path, open
it, skip `line_skip` lines, and read its chunk (offset `i * bpf`, length
`bpf`) with the encoding's reader; an unsupported encoding panics after
the open and line skip of the current file. -/
def perFileReads (e : Encoding) (ls bskip bpf : Nat) :
    Nat → List Line → List Act × Option Line
  | _, [] => ([], none)
  | i, p :: ps =>
    match encAct e (i * bpf) bpf bskip with
    | none => ([Act.openFile p, Act.skipLns ls], some "unsupported encoding".toList)
    | some a =>
      (Act.openFile p :: Act.skipLns ls :: a ::
        (perFileReads e ls bskip bpf (i + 1) ps).1,
        (perFileReads e ls bskip bpf (i + 1) ps).2)

/-- `read_payload`, as its I/O-action trace.  Detached: resolve paths,
check existence of every path, `div_rem_euclid` (division by zero and
uneven division both panic before anything is opened),
`chunks_exact_mut` (zero chunk size panics), then the per-file loop.
Attached: skip lines, then one read — the tail sentinel is consulted
only in the `raw` arm. -/
def readPayloadTrace (fs : Line → Bool) (dir : Line) (h : NRRD) :
    List Act × Option Line :=
  match h.expectedBytesQ with
  | none => ([], some "block size must be defined".toList)
  | some nExp =>
    let ls := h.line_skip.getD 0
    let bskip := (h.byte_skip.map ByteSkip.toSkip).getD 0
    let rtail := (h.byte_skip.map ByteSkip.readTail).getD false
    match h.data_file with
    | some df =>
      let resolved := df.paths.map (fun p => resolvePath dir p)
      let ec := existenceChecks fs resolved
      if !ec.2 then (ec.1, some "does not exist".toList)
      else
        let n := resolved.length
        if n = 0 then (ec.1, some "division by zero".toList)
        else if nExp % n ≠ 0 then
          (ec.1, some "files do not divide bytes evenly".toList)
        else if nExp / n = 0 then
          (ec.1, some "chunk size must be non-zero".toList)
        else
          let r := perFileReads h.encoding ls bskip (nExp / n) 0 resolved
          (ec.1 ++ r.1, r.2)
    | none =>
      match h.encoding with
      | .raw =>
        if rtail then ([Act.skipLns ls, Act.tailRead nExp], none)
        else ([Act.skipLns ls, Act.rawRead 0 nExp bskip], none)
      | .rawgz => ([Act.skipLns ls, Act.gzRead 0 nExp bskip], none)
      | .rawbz2 => ([Act.skipLns ls, Act.bzRead 0 nExp bskip], none)
      | _ => ([Act.skipLns ls], some "unsupported encoding".toList)

/-! ### Closed forms for the numbered-sequence index ranges -/

/-- The indices `a, a + s, …` up to `b` (ascending, as arithmetic), the
spec-side description of the `step > 0` traversal. -/
def ascIndices (a b s : Nat) : List Nat :=
  if a ≤ b then (List.range ((b - a) / s + 1)).map (fun k => a + s * k) else []

/-- The indices `b, b - s, …` down to `a` (descending), the traversal the
`step < 0` loop actually performs over the range `a..=b`. -/
def descIndices (a b s : Nat) : List Nat :=
  if a ≤ b then (List.range ((b - a) / s + 1)).map (fun k => b - s * k) else []

/-! ## Claim C5: dimension/sizes length mismatch -/

/-- The claim's own example collection: `dimension: 3` with two sizes. -/
def mismatchLines : List Line :=
  ["NRRD0004", "dimension: 3", "type: uint8", "encoding: raw",
   "endian: little", "sizes: 4 5"].map String.toList

/-! ## Claim C7: mandatory-field extraction is scan-based, not positional -/

/-- A collection with `endian` and `encoding` swapped out of the declared
order. -/
def outOfOrderLines : List Line :=
  ["NRRD0004", "dimension: 1", "type: uint8", "endian: little",
   "encoding: raw", "sizes: 2"].map String.toList

/-- A collection with an unknown line inserted among the mandatory
fields. -/
def unknownFieldLines : List Line :=
  ["NRRD0004", "dimension: 1", "type: uint8", "mystery: 7",
   "encoding: raw", "endian: little", "sizes: 2"].map String.toList

/-- A collection missing the mandatory `endian` field. -/
def missingEndianLines : List Line :=
  ["NRRD0004", "dimension: 1", "type: uint8", "encoding: raw",
   "sizes: 2"].map String.toList

/-! ## Claims C3/C4: read_payload control flow -/

/-- A minimal attached uint8 header (24 one-byte elements), the base for
the concrete payload-codec headers below. -/
def baseNRRD : NRRD :=
  { magic := 4, dimension := 1, dtype := DType.uint8, block_size := none,
    encoding := Encoding.raw, endian := Endian.Little, content := none,
    min := none, max := none, old_min := none, old_max := none,
    data_file := none, line_skip := none, byte_skip := none,
    sample_units := none, sizes := [24], spacings := none,
    thicknesses := none, axis_mins := none, axis_maxs := none,
    centerings := none, labels := none, units := none, kinds := none,
    space := none, space_dimension := none, space_units := none,
    space_origin := none, space_directions := none, key_vals := [],
    comments := [] }

/-- The chunk-read action of a supported encoding (total version of
`encAct`, for stating traces). -/
def mkAct (e : Encoding) (off len skip : Nat) : Act :=
  match e with
  | .rawgz => Act.gzRead off len skip
  | .rawbz2 => Act.bzRead off len skip
  | _ => Act.rawRead off len skip

/-- The concrete gzip + tail-sentinel header of the claim. -/
def hdrGzRev : NRRD := { baseNRRD with
  encoding := Encoding.rawgz
  byte_skip := some ByteSkip.rev }

/-- The bzip2 + tail-sentinel variant. -/
def hdrBzRev : NRRD := { baseNRRD with
  encoding := Encoding.rawbz2
  byte_skip := some ByteSkip.rev }

/-- A detached raw header: 4 one-byte elements split over an explicit list
of two files. -/
def hdrDetached2 : NRRD := { baseNRRD with
  data_file := some (DataFile.FileList none ["a.raw".toList, "b.raw".toList])
  sizes := [4] }

/-! ## Claim C1: minimal-header serialize/parse/serialize round trip -/

/-- A header record carrying exactly the minimal mandatory field set and
no unknown fields (every optional field absent, no key-values, no
comments, attached payload) — the records the claim quantifies over. -/
def mkMinimalNRRD (m d : Nat) (t : DType) (bs : Option Nat) (e : Encoding)
    (en : Endian) (sz : List Nat) : NRRD :=
  { magic := m, dimension := d, dtype := t, block_size := bs, encoding := e,
    endian := en, content := none, min := none, max := none, old_min := none,
    old_max := none, data_file := none, line_skip := none, byte_skip := none,
    sample_units := none, sizes := sz, spacings := none, thicknesses := none,
    axis_mins := none, axis_maxs := none, centerings := none, labels := none,
    units := none, kinds := none, space := none, space_dimension := none,
    space_units := none, space_origin := none, space_directions := none,
    key_vals := [], comments := [] }

theorem digitsRevGo_eq_digits (f n : Nat) (h : n ≤ f) :
    digitsRevGo f n = Nat.digits 10 n := by
  induction f generalizing n with
  | zero =>
    interval_cases n
    simp [digitsRevGo]
  | succ f ih =>
    by_cases hn : n = 0
    · simp [digitsRevGo, hn]
    · rw [digitsRevGo, if_neg hn, Nat.digits_def' (by norm_num) (Nat.pos_of_ne_zero hn),
        ih (n / 10) ?_]
      have h10 : n / 10 < n := Nat.div_lt_self (Nat.pos_of_ne_zero hn) (by norm_num)
      omega

theorem decVal_append_singleton (l : Line) (c : Char) :
    decVal (l ++ [c]) = 10 * decVal l + (c.toNat - 48) := by
  simp [decVal, List.foldl_append]

theorem digitChar_toNat_sub (d : Nat) (hd : d < 10) :
    (Nat.digitChar d).toNat - 48 = d := by
  interval_cases d <;> decide

theorem decVal_reverse_map_digitChar (L : List Nat) (hL : ∀ d ∈ L, d < 10) :
    decVal (L.reverse.map Nat.digitChar) = Nat.ofDigits 10 L := by
  induction L with
  | nil => simp [decVal]
  | cons a L ih =>
    have ha : a < 10 := hL a (by simp)
    simp only [List.reverse_cons, List.map_append, List.map_cons, List.map_nil]
    rw [decVal_append_singleton, ih (fun d hd => hL d (by simp [hd])),
      Nat.ofDigits_cons, digitChar_toNat_sub a ha]
    ring

theorem isDigit_digitChar (d : Nat) (hd : d < 10) :
    (Nat.digitChar d).isDigit = true := by
  interval_cases d <;> decide

theorem decVal_decRepr (n : Nat) : decVal (decRepr n) = n := by
  by_cases hn : n = 0
  · simp [decRepr, hn, decVal]
  · rw [decRepr, if_neg hn, digitsRevGo_eq_digits n n le_rfl,
      decVal_reverse_map_digitChar _ (fun d hd => Nat.digits_lt_base (by norm_num) hd),
      Nat.ofDigits_digits]

theorem decRepr_ne_nil (n : Nat) : decRepr n ≠ [] := by
  by_cases hn : n = 0
  · simp [decRepr, hn]
  · rw [decRepr, if_neg hn]
    simp only [ne_eq, List.map_eq_nil_iff, List.reverse_eq_nil_iff]
    rw [digitsRevGo_eq_digits n n le_rfl]
    exact Nat.digits_ne_nil_iff_ne_zero.mpr hn

theorem decRepr_all_digit (n : Nat) : (decRepr n).all Char.isDigit = true := by
  by_cases hn : n = 0
  · simp [decRepr, hn]
  · rw [decRepr, if_neg hn, digitsRevGo_eq_digits n n le_rfl]
    simp only [List.all_eq_true, List.mem_map, List.mem_reverse]
    rintro c ⟨d, hd, rfl⟩
    exact isDigit_digitChar d (Nat.digits_lt_base (by norm_num) hd)

theorem parseNatLt_decRepr (bound n : Nat) (h : n < bound) :
    parseNatLt bound (decRepr n) = some n := by
  rw [parseNatLt, if_pos, decVal_decRepr]
  refine ⟨decRepr_ne_nil n, decRepr_all_digit n, ?_⟩
  rw [decVal_decRepr]; exact h

theorem parseIntW_intRepr (w : Nat) (v : Int) (hlo : -(2 ^ (w - 1) : Int) ≤ v)
    (hhi : v < 2 ^ (w - 1)) : parseIntW w (intRepr v) = some v := by
  have hcast : ((2 ^ (w - 1) : Nat) : Int) = 2 ^ (w - 1) := by push_cast; ring
  by_cases hv : v < 0
  · have hb : v.natAbs < 2 ^ (w - 1) + 1 := by omega
    rw [intRepr, if_pos hv, parseIntW, if_pos rfl, parseNatLt_decRepr _ _ hb]
    show some (-(v.natAbs : Int)) = some v
    congr 1
    omega
  · obtain ⟨c, t, hct⟩ : ∃ c t, decRepr v.toNat = c :: t := by
      match hd : decRepr v.toNat with
      | [] => exact absurd hd (decRepr_ne_nil _)
      | c :: t => exact ⟨c, t, rfl⟩
    have hcdig : c.isDigit = true := by
      have := decRepr_all_digit v.toNat
      rw [hct] at this
      simp at this
      exact this.1
    have hcne : ¬ c = '-' := by
      intro hcontra
      rw [hcontra] at hcdig
      exact absurd hcdig (by decide)
    have hb : v.toNat < 2 ^ (w - 1) := by omega
    rw [intRepr, if_neg hv, hct, parseIntW, if_neg hcne, ← hct,
      parseNatLt_decRepr _ _ hb]
    show some ((v.toNat : Int)) = some v
    congr 1
    omega

theorem isPrefixOf_append_self (p r : Line) : p.isPrefixOf (p ++ r) = true := by
  induction p with
  | nil => simp [List.isPrefixOf]
  | cons c t ih => simp [List.isPrefixOf, ih]

theorem findAfter_append_self (p r : Line) : findAfter p (p ++ r) = some r := by
  have hpre := isPrefixOf_append_self p r
  match hcase : p ++ r with
  | [] =>
    have hp : p = [] := by cases p <;> simp_all
    have hr : r = [] := by cases p <;> simp_all
    subst hp; subst hr
    simp [findAfter]
  | c :: t =>
    rw [findAfter, if_pos (by rw [← hcase]; exact hpre), ← hcase,
      List.drop_left]

theorem nonWS_of_isDigit (c : Char) (h : c.isDigit = true) : ws c = false := by
  rw [ws]
  by_contra hws
  have hws' : c.isWhitespace = true := by simpa using hws
  have hcases : c = ' ' ∨ c = '\t' ∨ c = '\r' ∨ c = '\n' := by
    simp only [Char.isWhitespace, Bool.or_eq_true, decide_eq_true_eq] at hws'
    tauto
  rcases hcases with h1 | h1 | h1 | h1 <;> subst h1 <;> exact absurd h (by decide)

theorem dropWhile_ws_of_head (c : Char) (t : Line) (hc : ws c = false) :
    (c :: t).dropWhile ws = c :: t := by
  simp [List.dropWhile, hc]

/-- Trimming is the identity on a list whose first and last characters are
not whitespace. -/
theorem trimChars_eq_self (c d : Char) (m : Line) (hc : ws c = false)
    (hd : ws d = false) : trimChars (c :: (m ++ [d])) = c :: (m ++ [d]) := by
  rw [trimChars, dropWhile_ws_of_head c _ hc]
  have : (c :: (m ++ [d])).reverse = d :: (m.reverse ++ [c]) := by simp
  rw [this, dropWhile_ws_of_head d _ hd, ← this, List.reverse_reverse]

theorem trimChars_nil : trimChars [] = [] := rfl

theorem trimChars_eq_self_of_all (l : Line) (h : ∀ c ∈ l, ws c = false) :
    trimChars l = l := by
  match l with
  | [] => exact trimChars_nil
  | c :: t =>
    match ht : t.reverse with
    | [] =>
      have : t = [] := by simpa using congrArg List.reverse ht
      subst this
      have hc := h c (by simp)
      simp [trimChars, List.dropWhile, hc]
    | d :: m =>
      have hteq : t = m.reverse ++ [d] := by
        have := congrArg List.reverse ht
        simpa using this
      rw [hteq]
      exact trimChars_eq_self c d m.reverse (h c (by simp))
        (h d (by simp [hteq]))

theorem trimChars_eq_self_of_ends (l : Line)
    (h1 : ∀ c, l.head? = some c → ws c = false)
    (h2 : ∀ c, l.getLast? = some c → ws c = false) : trimChars l = l := by
  match l with
  | [] => exact trimChars_nil
  | c :: t =>
    have hc : ws c = false := h1 c rfl
    match ht : t.reverse with
    | [] =>
      have : t = [] := by simpa using congrArg List.reverse ht
      subst this
      simp [trimChars, List.dropWhile, hc]
    | d :: m =>
      have hteq : t = m.reverse ++ [d] := by
        simpa using congrArg List.reverse ht
      have hd : ws d = false := by
        refine h2 d ?_
        rw [hteq, show c :: (m.reverse ++ [d]) = (c :: m.reverse) ++ [d] from rfl,
          List.getLast?_append_of_ne_nil _ (by simp)]
        rfl
      rw [hteq]
      exact trimChars_eq_self c d m.reverse hc hd

theorem joinSp_ne_nil (x : Line) (ts : List Line) (hx : x ≠ []) :
    joinSp (x :: ts) ≠ [] := by
  cases ts with
  | nil => simpa [joinSp] using hx
  | cons y t => simp [joinSp]

theorem joinSp_head_nonws (ts : List Line)
    (h : ∀ t ∈ ts, t ≠ [] ∧ ∀ c ∈ t, ws c = false) :
    ∀ c, (joinSp ts).head? = some c → ws c = false := by
  intro c hc
  match ts with
  | [] => simp [joinSp] at hc
  | x :: t =>
    obtain ⟨hxne, hxws⟩ := h x (by simp)
    obtain ⟨a, b, rfl⟩ : ∃ a b, x = a :: b := by
      cases x with
      | nil => exact absurd rfl hxne
      | cons a b => exact ⟨a, b, rfl⟩
    have hac : c = a := by
      cases t with
      | nil => simp [joinSp] at hc; exact hc.symm
      | cons y m => simp [joinSp] at hc; exact hc.symm
    subst hac
    exact hxws _ (by simp)

theorem joinSp_getLast_nonws (ts : List Line)
    (h : ∀ t ∈ ts, t ≠ [] ∧ ∀ c ∈ t, ws c = false) :
    ∀ c, (joinSp ts).getLast? = some c → ws c = false := by
  induction ts with
  | nil => intro c hc; simp [joinSp] at hc
  | cons x t ih =>
    intro c hc
    cases t with
    | nil =>
      obtain ⟨hxne, hxws⟩ := h x (by simp)
      refine hxws c ?_
      have : x.getLast? = some c := by simpa [joinSp] using hc
      exact List.mem_of_mem_getLast? this
    | cons y m =>
      obtain ⟨hyne, _⟩ := h y (by simp)
      have hjne : joinSp (y :: m) ≠ [] := joinSp_ne_nil y m hyne
      rw [show joinSp (x :: y :: m) = x ++ ' ' :: joinSp (y :: m) from rfl,
        List.getLast?_append_of_ne_nil _ (by simp)] at hc
      have hc' : (joinSp (y :: m)).getLast? = some c := by
        obtain ⟨a, b, hab⟩ : ∃ a b, joinSp (y :: m) = a :: b := by
          cases hj : joinSp (y :: m) with
          | nil => exact absurd hj hjne
          | cons a b => exact ⟨a, b, rfl⟩
        rw [hab] at hc ⊢
        rwa [List.getLast?_cons_cons] at hc
      exact ih (fun t ht => h t (by simp [ht])) c hc'

theorem splitWSAux_nonws_append (x : Line) (hx : ∀ c ∈ x, ws c = false) :
    ∀ acc r, splitWSAux acc (x ++ r) = splitWSAux (x.reverse ++ acc) r := by
  induction x with
  | nil => intro acc r; simp
  | cons c t ih =>
    intro acc r
    have hc : ws c = false := hx c (by simp)
    rw [List.cons_append, splitWSAux, hc]
    simp only [Bool.false_eq_true, if_false]
    rw [ih (fun d hd => hx d (by simp [hd])) (c :: acc) r]
    simp

theorem splitWS_join (ts : List Line)
    (h : ∀ t ∈ ts, t ≠ [] ∧ ∀ c ∈ t, ws c = false) :
    splitWS (joinSp ts) = ts := by
  induction ts with
  | nil => rfl
  | cons x t ih =>
    obtain ⟨hxne, hxws⟩ := h x (by simp)
    cases t with
    | nil =>
      show splitWSAux [] (joinSp [x]) = [x]
      rw [show joinSp [x] = x ++ [] by simp [joinSp],
        splitWSAux_nonws_append x hxws [] []]
      simp [splitWSAux, hxne]
    | cons y m =>
      show splitWSAux [] (joinSp (x :: y :: m)) = x :: y :: m
      rw [show joinSp (x :: y :: m) = x ++ ' ' :: joinSp (y :: m) from rfl,
        splitWSAux_nonws_append x hxws [] _, splitWSAux]
      have hws : ws ' ' = true := by decide
      rw [hws]
      simp only [if_true, List.append_nil]
      rw [if_neg (by simpa using hxne)]
      rw [List.reverse_reverse]
      have := ih (fun t ht => h t (by simp [ht]))
      rw [show splitWSAux [] (joinSp (y :: m)) = splitWS (joinSp (y :: m)) from rfl,
        this]

/-- Splitting after trimming a space-joined list of non-empty whitespace-free
tokens recovers the tokens: the composite used by the `sizes` (and similar)
field parser on serialized output. -/
theorem splitWS_trim_join (ts : List Line)
    (h : ∀ t ∈ ts, t ≠ [] ∧ ∀ c ∈ t, ws c = false) :
    splitWS (trimChars (joinSp ts)) = ts := by
  rw [trimChars_eq_self_of_ends _ (joinSp_head_nonws ts h) (joinSp_getLast_nonws ts h),
    splitWS_join ts h]

theorem stepByGo_eq_ascIndices (s : Nat) (hs : 1 ≤ s) :
    ∀ f a b, b + 1 - a ≤ f → stepByGo s f a b = ascIndices a b s := by
  intro f
  induction f with
  | zero =>
    intro a b hf
    have hab : ¬ a ≤ b := by omega
    simp [stepByGo, ascIndices, hab]
  | succ f ih =>
    intro a b hf
    by_cases hab : a ≤ b
    · rw [stepByGo, if_pos hab, ih (a + s) b (by omega)]
      by_cases hstep : a + s ≤ b
      · rw [ascIndices, if_pos hstep, ascIndices, if_pos hab]
        have hdiv : (b - a) / s + 1 = ((b - (a + s)) / s + 1) + 1 := by
          have h1 : b - a = (b - (a + s)) + s := by omega
          rw [h1, Nat.add_div_right _ (by omega)]
        rw [hdiv]
        conv_rhs => rw [List.range_succ_eq_map]
        simp only [List.map_cons, List.map_map, Nat.mul_zero, Nat.add_zero,
          List.cons.injEq, true_and]
        refine congrArg (fun g => List.map g (List.range ((b - (a + s)) / s + 1))) ?_
        funext k
        show a + s + s * k = a + s * (k + 1)
        ring
      · rw [ascIndices, if_neg hstep, ascIndices, if_pos hab,
          Nat.div_eq_of_lt (by omega)]
        rw [show List.range 1 = [0] from rfl]
        simp
    · rw [stepByGo, if_neg hab, ascIndices, if_neg hab]

theorem stepByIncl_eq_ascIndices (a b s : Nat) (hs : 1 ≤ s) :
    stepByIncl a b s = ascIndices a b s :=
  stepByGo_eq_ascIndices s hs _ a b le_rfl

theorem stepByRevGo_eq_descIndices (s : Nat) (hs : 1 ≤ s) :
    ∀ f a b, b + 1 - a ≤ f → stepByRevGo s f a b = descIndices a b s := by
  intro f
  induction f with
  | zero =>
    intro a b hf
    have hab : ¬ a ≤ b := by omega
    simp [stepByRevGo, descIndices, hab]
  | succ f ih =>
    intro a b hf
    by_cases hab : a ≤ b
    · rw [stepByRevGo, if_pos hab]
      by_cases hstep : a + s ≤ b
      · rw [if_pos hstep, ih a (b - s) (by omega)]
        rw [descIndices, if_pos (by omega), descIndices, if_pos hab]
        have hdiv : (b - a) / s + 1 = ((b - s - a) / s + 1) + 1 := by
          have h1 : b - a = (b - s - a) + s := by omega
          rw [h1, Nat.add_div_right _ (by omega)]
        rw [hdiv]
        conv_rhs => rw [List.range_succ_eq_map]
        simp only [List.map_cons, List.map_map, Nat.mul_zero, Nat.sub_zero,
          List.cons.injEq, true_and]
        refine congrArg (fun g => List.map g (List.range ((b - s - a) / s + 1))) ?_
        funext k
        show b - s - s * k = b - s * (k + 1)
        have : s * (k + 1) = s + s * k := by ring
        omega
      · rw [if_neg hstep, descIndices, if_pos hab, Nat.div_eq_of_lt (by omega)]
        rw [show List.range 1 = [0] from rfl]
        simp
    · rw [stepByRevGo, if_neg hab, descIndices, if_neg hab]

theorem stepByRevIncl_eq_descIndices (a b s : Nat) (hs : 1 ≤ s) :
    stepByRevIncl a b s = descIndices a b s :=
  stepByRevGo_eq_descIndices s hs _ a b le_rfl

/-! ## Claim C2: numbered-sequence path expansion -/

/-- C2 (counterexample).  The claim says that for `min=0, max=9, step=-2`
`paths()` yields the indices `[8,6,4,2,0]`.  The code's descending branch
iterates `(max.abs()..=min.abs()).rev()`, i.e. the Rust range `9..=0`,
which is empty — so `paths()` yields `[]`, not the five formatted
indices. -/
theorem c2_counterexample :
    (DataFile.FileFormat "f%d".toList 0 9 (-2) none).paths ≠
      ["f8".toList, "f6".toList, "f4".toList, "f2".toList, "f0".toList] := by
  decide

/-- C2 (amended).  For a numbered-sequence directive, `paths()` formats the
pattern with each integer `i` from `abs(min)` to `abs(max)` inclusive
stepping by `step` when `step > 0`; when `step < 0` the traversal runs
over `abs(max)..=abs(min)` reversed — from `abs(min)` *down* to
`abs(max)` by `abs(step)`, empty whenever `abs(max) > abs(min)`; and
`step == 0` yields the empty sequence.  In particular `min=0, max=9,
step=2` yields the indices `[0,2,4,6,8]` in order, and `min=0, max=9,
step=-2` yields `[]`. -/
theorem c2_amended (fmt : Line) (mn mx st : Int) (sd : Option Nat) :
    (0 < st → (DataFile.FileFormat fmt mn mx st sd).paths =
      (ascIndices mn.natAbs mx.natAbs st.toNat).map (fun i => sprintfD fmt i)) ∧
    (st < 0 → (DataFile.FileFormat fmt mn mx st sd).paths =
      (descIndices mx.natAbs mn.natAbs st.natAbs).map (fun i => sprintfD fmt i)) ∧
    (st = 0 → (DataFile.FileFormat fmt mn mx st sd).paths = []) ∧
    (DataFile.FileFormat fmt 0 9 2 sd).paths =
      [sprintfD fmt 0, sprintfD fmt 2, sprintfD fmt 4, sprintfD fmt 6,
        sprintfD fmt 8] ∧
    (DataFile.FileFormat fmt 0 9 (-2) sd).paths = [] := by
  refine ⟨?_, ?_, ?_, ?_, ?_⟩
  · intro hst
    rw [DataFile.paths, if_pos hst, if_neg (by omega), List.append_nil,
      stepByIncl_eq_ascIndices _ _ _ (by omega)]
  · intro hst
    rw [DataFile.paths, if_neg (by omega), List.nil_append, if_pos hst,
      stepByRevIncl_eq_descIndices _ _ _ (by omega)]
  · intro hst
    rw [DataFile.paths, if_neg (by omega), if_neg (by omega), List.append_nil]
  · rw [DataFile.paths, if_pos (by norm_num), if_neg (by norm_num),
      List.append_nil, show stepByIncl (0 : Int).natAbs (9 : Int).natAbs
        (2 : Int).toNat = [0, 2, 4, 6, 8] from by decide]
    rfl
  · rw [DataFile.paths, if_neg (by norm_num), if_pos (by norm_num),
      List.nil_append, show stepByRevIncl (9 : Int).natAbs (0 : Int).natAbs
        (-2 : Int).natAbs = [] from by decide]
    rfl

/-- C2 (witness): the amended characterization applied at both concrete
directives of the claim. -/
theorem c2_witness :
    (DataFile.FileFormat "f%d".toList 0 9 2 none).paths =
      (ascIndices (0 : Int).natAbs (9 : Int).natAbs (2 : Int).toNat).map
        (fun i => sprintfD "f%d".toList i) ∧
    (DataFile.FileFormat "f%d".toList 0 9 (-2) none).paths =
      (descIndices (9 : Int).natAbs (0 : Int).natAbs ((-2 : Int)).natAbs).map
        (fun i => sprintfD "f%d".toList i) :=
  ⟨(c2_amended "f%d".toList 0 9 2 none).1 (by norm_num),
   (c2_amended "f%d".toList 0 9 (-2) none).2.1 (by norm_num)⟩

/-! ## Claim C6: byte-skip parsing and the tail sentinel -/

/-- C6 (counterexample).  The claim says the tail sentinel arises iff the
value is exactly `-1`; but `ByteSkip::from_str` maps *every* negative
value to the sentinel: `-2` also parses to `rev`. -/
theorem c6_counterexample :
    byteSkipFromStr "byte skip: -2".toList = some ByteSkip.rev ∧
      (-2 : Int) ≠ -1 := by
  constructor
  · decide
  · decide

/-- C6 (amended).  Parsing a byte-skip line with integer value `v` (in the
`isize` range) yields the tail sentinel iff `v` is negative; every
non-negative `v` is a byte count. -/
theorem c6_amended (v : Int) (hlo : -(2 ^ 63) ≤ v) (hhi : v < 2 ^ 63) :
    byteSkipFromStr (byteSkipPat1 ++ intRepr v) =
      some (if v < 0 then ByteSkip.rev else ByteSkip.skip v.toNat) := by
  have htrim : trimChars (intRepr v) = intRepr v := by
    apply trimChars_eq_self_of_all
    intro c hc
    rw [intRepr] at hc
    by_cases hv : v < 0
    · rw [if_pos hv] at hc
      rcases List.mem_cons.mp hc with rfl | hmem
      · decide
      · refine nonWS_of_isDigit c ?_
        have := decRepr_all_digit v.natAbs
        rw [List.all_eq_true] at this
        exact this c hmem
    · rw [if_neg hv] at hc
      refine nonWS_of_isDigit c ?_
      have := decRepr_all_digit v.toNat
      rw [List.all_eq_true] at this
      exact this c hc
  have hfi : fieldIdx [byteSkipPat1, byteSkipPat2] (byteSkipPat1 ++ intRepr v) =
      some (intRepr v) := by
    rw [fieldIdx, findAfter_append_self]
  have h1 : -(2 ^ (64 - 1) : Int) ≤ v := by norm_num; exact hlo
  have h2 : v < 2 ^ (64 - 1) := by norm_num; exact hhi
  rw [byteSkipFromStr, hfi]
  show (parseIntW 64 (trimChars (intRepr v))).map _ = _
  rw [htrim, parseIntW_intRepr 64 v h1 h2]
  rfl

/-- C6 (witness): the amended theorem at `-2` (sentinel) and at `5`
(byte count). -/
theorem c6_witness :
    byteSkipFromStr (byteSkipPat1 ++ intRepr (-2)) = some ByteSkip.rev ∧
    byteSkipFromStr (byteSkipPat1 ++ intRepr 5) = some (ByteSkip.skip 5) := by
  constructor
  · have h := c6_amended (-2) (by norm_num) (by norm_num)
    rw [if_pos (by norm_num)] at h
    exact h
  · have h := c6_amended 5 (by norm_num) (by norm_num)
    rw [if_neg (by norm_num)] at h
    exact h

/-- C5 (counterexample).  The claim says this parse fails with a
sizes-parsing error; in fact no dimension-vs-sizes check exists anywhere
in the assembler: the parse succeeds and yields a record with
`dimension = 3` and `sizes = [4, 5]`. -/
theorem c5_counterexample :
    (fromLinesFull mismatchLines).isSome = true ∧
    (fromLinesFull mismatchLines).map (fun p => (p.1.dimension, p.1.sizes)) =
      some (3, [4, 5]) := by
  constructor
  · decide
  · decide

/-- C5 (amended).  Parsing a header whose dimension value differs from the
number of sizes entries succeeds anyway, consuming every line and
producing the mismatched record — the assembler performs no
dimension/sizes consistency check. -/
theorem c5_amended :
    (fromLinesFull mismatchLines).map
      (fun p => (p.1.dimension, p.1.sizes, p.2)) = some (3, [4, 5], []) := by
  decide

/-- C7 (counterexample).  The claim says a collection whose leading fields
are out of the declared order makes the minimal parse fail; in fact
`read_header_def` locates each field by scanning the whole collection, so
the swapped `endian`/`encoding` collection parses successfully (and
completely). -/
theorem c7_counterexample :
    (fromLinesMinimal outOfOrderLines).map
      (fun p => (p.1.encoding, p.1.endian, p.2)) =
      some (Encoding.raw, Endian.Little, []) := by
  decide

/-- C7 (amended).  Each mandatory field is located by scanning the entire
remaining collection (in the fixed extraction sequence), so out-of-order
leading fields still parse; unknown lines anywhere are tolerated (left
unconsumed); the minimal parse fails when a mandatory field is absent. -/
theorem c7_amended :
    (fromLinesMinimal outOfOrderLines).map
      (fun p => (p.1.magic, p.1.dimension, p.1.dtype, p.1.encoding,
        p.1.endian, p.1.sizes, p.2)) =
      some (4, 1, DType.uint8, Encoding.raw, Endian.Little, [2], []) ∧
    (fromLinesMinimal unknownFieldLines).map (fun p => p.2) =
      some ["mystery: 7".toList] ∧
    fromLinesMinimal missingEndianLines = none := by
  refine ⟨by decide, by decide, by decide⟩

/-! ## Claim C9: key-value sweep (last duplicate wins, other lines kept) -/

theorem readKeyValuesGo_rest (lines : List Line) :
    ∀ acc, (readKeyValuesGo acc lines).2 =
      lines.filter (fun l => !matchesKeyValue l) := by
  induction lines with
  | nil => intro acc; rfl
  | cons l ls ih =>
    intro acc
    rw [readKeyValuesGo]
    by_cases hm : matchesKeyValue l
    · rw [if_pos hm, ih, List.filter_cons]
      simp [hm]
    · rw [if_neg hm]
      show l :: (readKeyValuesGo acc ls).2 = _
      rw [ih, List.filter_cons]
      simp [hm]

theorem filter_eq_nil_of_any_false (k : Line) (acc : List (Line × Line))
    (h : acc.any (fun p => p.1 = k) = false) :
    acc.filter (fun p => p.1 = k) = [] := by
  induction acc with
  | nil => rfl
  | cons p t ih =>
    rw [List.any_cons, Bool.or_eq_false_iff] at h
    rw [List.filter_cons, if_neg (by simpa using h.1)]
    exact ih h.2

theorem mem_ne_of_filter_eq_nil (k : Line) (t : List (Line × Line))
    (h : t.filter (fun p => p.1 = k) = []) :
    ∀ q ∈ t, ¬ q.1 = k := by
  intro q hq hqk
  have : q ∈ t.filter (fun p => p.1 = k) :=
    List.mem_filter.mpr ⟨hq, by simpa using hqk⟩
  rw [h] at this
  exact absurd this (List.not_mem_nil q)

theorem filter_map_replace_eq_nil (k v : Line) (t : List (Line × Line))
    (h : ∀ q ∈ t, ¬ q.1 = k) :
    (t.map (fun p => if p.1 = k then (k, v) else p)).filter
      (fun p => p.1 = k) = [] := by
  induction t with
  | nil => rfl
  | cons p t ih =>
    have hp : ¬ p.1 = k := h p (by simp)
    rw [List.map_cons, if_neg hp, List.filter_cons, if_neg (by simpa using hp)]
    exact ih (fun q hq => h q (by simp [hq]))

theorem filter_insertKV_same (k v : Line) (acc : List (Line × Line))
    (hlen : (acc.filter (fun p => p.1 = k)).length ≤ 1) :
    (insertKV acc k v).filter (fun p => p.1 = k) = [(k, v)] := by
  rw [insertKV]
  by_cases hany : acc.any (fun p => p.1 = k)
  · rw [if_pos hany]
    induction acc with
    | nil => simp at hany
    | cons p t ih =>
      by_cases hp : p.1 = k
      · rw [List.map_cons, if_pos hp, List.filter_cons, if_pos (by simp)]
        have hfil : t.filter (fun p => p.1 = k) = [] := by
          rw [List.filter_cons, if_pos (by simpa using hp)] at hlen
          have := Nat.le_of_succ_le_succ hlen
          exact List.length_eq_zero.mp (Nat.le_zero.mp this)
        rw [filter_map_replace_eq_nil k v t (mem_ne_of_filter_eq_nil k t hfil)]
      · rw [List.any_cons, Bool.or_eq_true] at hany
        rcases hany with h1 | h1
        · exact absurd (by simpa using h1) hp
        · rw [List.filter_cons, if_neg (by simpa using hp)] at hlen
          rw [List.map_cons, if_neg hp, List.filter_cons,
            if_neg (by simpa using hp)]
          exact ih hlen h1
  · rw [if_neg hany, List.filter_append,
      filter_eq_nil_of_any_false k acc
        (by simpa only [Bool.not_eq_true] using hany)]
    simp

theorem filter_map_replace_other (k k' v : Line) (hne : ¬ k' = k)
    (t : List (Line × Line)) :
    (t.map (fun p => if p.1 = k' then (k', v) else p)).filter
      (fun p => p.1 = k) = t.filter (fun p => p.1 = k) := by
  induction t with
  | nil => rfl
  | cons p t ih =>
    by_cases hp : p.1 = k'
    · have hpk : ¬ p.1 = k := by rw [hp]; exact hne
      rw [List.map_cons, if_pos hp, List.filter_cons, if_neg (by simpa using hne),
        List.filter_cons, if_neg (by simpa using hpk), ih]
    · simp only [List.map_cons, if_neg hp, List.filter_cons, ih]

theorem filter_insertKV_other (k k' v : Line) (hne : ¬ k' = k)
    (acc : List (Line × Line)) :
    (insertKV acc k' v).filter (fun p => p.1 = k) =
      acc.filter (fun p => p.1 = k) := by
  rw [insertKV]
  by_cases hany : acc.any (fun p => p.1 = k')
  · rw [if_pos hany]
    exact filter_map_replace_other k k' v hne acc
  · rw [if_neg hany, List.filter_append, List.filter_cons,
      if_neg (by simpa using hne)]
    simp

theorem filter_insertKV_len (k k' v : Line) (acc : List (Line × Line))
    (hlen : (acc.filter (fun p => p.1 = k)).length ≤ 1) :
    ((insertKV acc k' v).filter (fun p => p.1 = k)).length ≤ 1 := by
  by_cases hk : k' = k
  · subst hk
    rw [filter_insertKV_same k' v acc hlen]
    simp
  · rw [filter_insertKV_other k k' v hk acc]
    exact hlen

theorem readKeyValuesGo_filter (k : Line) :
    ∀ (lines : List Line) (acc : List (Line × Line)),
      (acc.filter (fun p => p.1 = k)).length ≤ 1 →
      (readKeyValuesGo acc lines).1.filter (fun p => p.1 = k) =
        (match (lines.filter
            (fun l => matchesKeyValue l && (keyOf l = k))).getLast? with
         | some last => [(k, valOf last)]
         | none => acc.filter (fun p => p.1 = k)) := by
  intro lines
  induction lines with
  | nil => intro acc hinv; rfl
  | cons l ls ih =>
    intro acc hinv
    rw [readKeyValuesGo]
    by_cases hm : matchesKeyValue l
    · rw [if_pos hm]
      by_cases hk : keyOf l = k
      · rw [ih (insertKV acc (keyOf l) (valOf l))
          (filter_insertKV_len k (keyOf l) (valOf l) acc hinv), hk,
          List.filter_cons, if_pos (by simp [hm, hk])]
        cases hfl : ls.filter (fun l => matchesKeyValue l && (keyOf l = k)) with
        | nil =>
          exact filter_insertKV_same k (valOf l) acc hinv
        | cons x xs =>
          obtain ⟨z, hz⟩ : ∃ z, (x :: xs).getLast? = some z :=
            ⟨(x :: xs).getLast (by simp),
              List.getLast?_eq_getLast_of_ne_nil (by simp)⟩
          rw [List.getLast?_cons_cons, hz]
      · rw [ih (insertKV acc (keyOf l) (valOf l))
          (filter_insertKV_len k (keyOf l) (valOf l) acc hinv),
          List.filter_cons, if_neg (by simp [hk])]
        cases hfl : ls.filter (fun l => matchesKeyValue l && (keyOf l = k)) with
        | nil =>
          exact filter_insertKV_other k (keyOf l) (valOf l) hk acc
        | cons x xs =>
          obtain ⟨z, hz⟩ : ∃ z, (x :: xs).getLast? = some z :=
            ⟨(x :: xs).getLast (by simp),
              List.getLast?_eq_getLast_of_ne_nil (by simp)⟩
          rw [hz]
    · rw [if_neg hm]
      show (readKeyValuesGo acc ls).1.filter _ = _
      rw [ih acc hinv, List.filter_cons, if_neg (by simp [hm])]

/-- C9.  When the line collection contains two or more `key:=value` lines
with the same key, the assembled map holds exactly one entry for that key
— the value of the last such line in collection order — and the lines not
matching the `key:=value` shape survive the sweep unchanged, in their
original relative order. -/
theorem c9_key_values (lines : List Line) (k : Line)
    (hdup : 2 ≤ (lines.filter
      (fun l => matchesKeyValue l && (keyOf l = k))).length) :
    ∃ last, (lines.filter
        (fun l => matchesKeyValue l && (keyOf l = k))).getLast? = some last ∧
      (readKeyValues lines).1.filter (fun p => p.1 = k) = [(k, valOf last)] ∧
      (readKeyValues lines).2 = lines.filter (fun l => !matchesKeyValue l) := by
  have hfil := readKeyValuesGo_filter k lines [] (by simp)
  cases hfl : lines.filter (fun l => matchesKeyValue l && (keyOf l = k)) with
  | nil => rw [hfl] at hdup; simp at hdup
  | cons x xs =>
    have hne : (x :: xs) ≠ [] := by simp
    obtain ⟨last, hlast⟩ : ∃ last, (x :: xs).getLast? = some last :=
      ⟨(x :: xs).getLast hne, List.getLast?_eq_getLast_of_ne_nil hne⟩
    refine ⟨last, hlast, ?_, readKeyValuesGo_rest lines []⟩
    rw [readKeyValues, hfil, hfl, hlast]

/-- C9 (witness): the theorem at a concrete collection with a duplicated
key `a` (`a:=1` then `a:=3`) and an unmatched plain line. -/
theorem c9_witness :
    ∃ last, ((["a:=1", "b:=2", "a:=3", "plain line"].map String.toList).filter
        (fun l => matchesKeyValue l && (keyOf l = "a".toList))).getLast? =
          some last ∧
      (readKeyValues (["a:=1", "b:=2", "a:=3", "plain line"].map
          String.toList)).1.filter (fun p => p.1 = "a".toList) =
        [("a".toList, valOf last)] ∧
      (readKeyValues (["a:=1", "b:=2", "a:=3", "plain line"].map
          String.toList)).2 =
        (["a:=1", "b:=2", "a:=3", "plain line"].map String.toList).filter
          (fun l => !matchesKeyValue l) :=
  c9_key_values _ _ (by decide)

/-! ## Claim C10: explicit-list data-file sweep -/

theorem findIdx?_start_eq_some_of_take {α : Type} (p : α → Bool) :
    ∀ (l : List α) (s i : Nat) (hi : i < l.length),
      p (l.get ⟨i, hi⟩) = true →
      (∀ x ∈ l.take i, p x = false) →
      l.findIdx? p s = some (s + i) := by
  intro l
  induction l with
  | nil => intro s i hi; simp at hi
  | cons a t ih =>
    intro s i hi hp hprev
    cases i with
    | zero =>
      have hpa : p a = true := hp
      rw [List.findIdx?, if_pos hpa, Nat.add_zero]
    | succ j =>
      have hpa : p a = false := hprev a (by simp [List.take_succ_cons])
      rw [List.findIdx?, if_neg (by simp [hpa]),
        ih (s + 1) j (by simpa using hi) hp
          (fun x hx => hprev x (by simp [List.take_succ_cons, hx]))]
      congr 1
      omega

theorem findIdx?_eq_some_of_take {α : Type} (p : α → Bool) (l : List α)
    (i : Nat) (hi : i < l.length) (hp : p (l.get ⟨i, hi⟩) = true)
    (hprev : ∀ x ∈ l.take i, p x = false) : l.findIdx? p = some i := by
  have := findIdx?_start_eq_some_of_take p l 0 i hi hp hprev
  rwa [Nat.zero_add] at this

/-- C10.  When the data-file directive is the explicit-list variant at
position `i` of the remaining collection (no earlier line matches), every
line after `i` is appended in order to the directive's path list, and
exactly `length - i` lines are popped from the end — so the surviving
lines are precisely the first `i` lines of the collection. -/
theorem c10_read_data_file (lines : List Line) (i : Nat) (sd : Option Nat)
    (hi : i < lines.length)
    (hprev : ∀ l ∈ lines.take i, dataFileMatches l = false)
    (hmatch : dataFileMatches (lines.get ⟨i, hi⟩) = true)
    (hparse : dataFileFromStr (lines.get ⟨i, hi⟩) =
      some (DataFile.FileList sd [])) :
    readDataFile lines =
      some (some (DataFile.FileList sd (lines.drop (i + 1))), lines.take i) := by
  have hfind : lines.findIdx? dataFileMatches = some i :=
    findIdx?_eq_some_of_take dataFileMatches lines i hi hmatch hprev
  have hget : lines[i]? = some (lines.get ⟨i, hi⟩) := by
    rw [List.getElem?_eq_getElem hi]
    rfl
  rw [readDataFile, hfind]
  simp only [hget, hparse, List.nil_append]

/-- C10 (witness): a four-line collection whose second line is
`data file: LIST`; the two trailing lines become the path list and only
the first line survives. -/
theorem c10_witness :
    readDataFile (["foo: 1", "data file: LIST", "a.raw", "b.raw"].map
      String.toList) =
      some (some (DataFile.FileList none
        ((["foo: 1", "data file: LIST", "a.raw", "b.raw"].map
          String.toList).drop 2)),
        (["foo: 1", "data file: LIST", "a.raw", "b.raw"].map
          String.toList).take 1) :=
  c10_read_data_file _ 1 none (by decide) (by decide) (by decide) (by decide)

/-! ## Claim C8: no partial-success mode (read_with_skip) -/

theorem skipGo_spec : ∀ (f : Nat) (s : List Nat) (k : Nat), k ≤ f →
    skipGo f s k = if s.length < k then none else some (s.drop k) := by
  intro f
  induction f with
  | zero =>
    intro s k hk
    have hk0 : k = 0 := by omega
    subst hk0
    simp [skipGo]
  | succ f ih =>
    intro s k hk
    by_cases hk0 : k = 0
    · subst hk0
      simp [skipGo]
    · rw [skipGo, if_neg hk0]
      show (if min (min 8192 k) s.length = 0 then none
        else skipGo f (s.drop (min (min 8192 k) s.length))
          (k - min (min 8192 k) s.length)) = _
      by_cases hn : min (min 8192 k) s.length = 0
      · rw [if_pos hn, if_pos (by omega)]
      · rw [if_neg hn, ih _ _ (by omega), List.length_drop]
        by_cases hlen : s.length < k
        · rw [if_pos (by omega), if_pos hlen]
        · rw [if_neg (by omega), if_neg hlen, List.drop_drop]
          congr 2
          omega

theorem fillGo_spec : ∀ (f : Nat) (s buf : List Nat), buf.length ≤ f →
    fillGo f s buf =
      (s.take (min buf.length s.length) ++ buf.drop (min buf.length s.length),
        min buf.length s.length) := by
  intro f
  induction f with
  | zero =>
    intro s buf hf
    have hb : buf = [] := List.length_eq_zero.mp (by omega)
    subst hb
    simp [fillGo]
  | succ f ih =>
    intro s buf hf
    rw [fillGo]
    show (if min buf.length s.length = 0 then (buf, 0)
      else
        let r := fillGo f (s.drop (min buf.length s.length))
          (buf.drop (min buf.length s.length))
        (s.take (min buf.length s.length) ++ r.1,
          min buf.length s.length + r.2)) = _
    by_cases hn : min buf.length s.length = 0
    · rw [if_pos hn, hn]
      simp
    · rw [if_neg hn]
      rw [ih (s.drop (min buf.length s.length))
        (buf.drop (min buf.length s.length)) (by simp; omega)]
      simp only [List.length_drop]
      by_cases hbs : buf.length ≤ s.length
      · have h1 : min buf.length s.length = buf.length := by omega
        rw [h1]
        have h2 : min (buf.length - buf.length) (s.length - buf.length) = 0 := by
          omega
        rw [h2]
        simp
      · have h1 : min buf.length s.length = s.length := by omega
        rw [h1]
        have h2 : min (buf.length - s.length) (s.length - s.length) = 0 := by
          omega
        rw [h2]
        simp [List.drop_drop]

/-- C8 (counterexample).  The claim says a payload stream supplying fewer
than the expected bytes makes the read fail as a whole.  Reading an
attached raw payload of expected size 4 from a 2-byte stream *succeeds*,
returning the zero-padded partially-filled buffer `[1, 2, 0, 0]`. -/
theorem c8_counterexample :
    readAttachedRawPayload 4 0 0 [1, 2] = some [1, 2, 0, 0] := by decide

/-- C8 (amended).  `read_with_skip` fails only when the stream ends during
the byte-skip phase.  If the post-skip stream supplies fewer bytes than
the destination buffer, it succeeds, filling the available prefix,
leaving the rest of the (zero-initialized) buffer untouched, and
returning the number of bytes written — a count `read_payload` discards,
so the attached-raw read returns a zero-padded partial buffer rather than
failing. -/
theorem c8_amended (s buf : List Nat) (k expected ls bsk : Nat)
    (stream : List Nat) :
    (s.length < k → readWithSkip s buf k = none) ∧
    (k ≤ s.length → readWithSkip s buf k =
      some ((s.drop k).take (min buf.length (s.length - k)) ++
        buf.drop (min buf.length (s.length - k)),
        min buf.length (s.length - k))) ∧
    (bsk ≤ (skipLinesBytes ls stream).length →
      (skipLinesBytes ls stream).length - bsk < expected →
      readAttachedRawPayload expected ls bsk stream =
        some ((skipLinesBytes ls stream).drop bsk ++
          List.replicate (expected - ((skipLinesBytes ls stream).length - bsk))
            0)) := by
  refine ⟨?_, ?_, ?_⟩
  · intro hshort
    rw [readWithSkip, skipGo_spec k s k le_rfl, if_pos hshort]
  · intro hk
    rw [readWithSkip, skipGo_spec k s k le_rfl, if_neg (by omega)]
    show some (fillGo buf.length (s.drop k) buf) = _
    rw [fillGo_spec buf.length (s.drop k) buf le_rfl, List.length_drop]
  · intro hk hshort
    rw [readAttachedRawPayload, readWithSkip,
      skipGo_spec bsk (skipLinesBytes ls stream) bsk le_rfl, if_neg (by omega)]
    show Option.map Prod.fst
      (some (fillGo (List.replicate expected (0 : Nat)).length
        ((skipLinesBytes ls stream).drop bsk)
        (List.replicate expected (0 : Nat)))) = _
    rw [fillGo_spec (List.replicate expected (0 : Nat)).length _ _ le_rfl]
    simp only [List.length_replicate, List.length_drop]
    have hmin : min expected ((skipLinesBytes ls stream).length - bsk) =
        (skipLinesBytes ls stream).length - bsk := by omega
    rw [hmin, Option.map_some']
    congr 1
    rw [List.take_of_length_le (by simp), List.drop_replicate]

/-- C8 (witness): the amended theorem applied to a too-large skip
(failure) and to a short post-skip stream (zero-padded success). -/
theorem c8_witness :
    readWithSkip [1] [0, 0] 5 = none ∧
    readAttachedRawPayload 4 0 0 [1, 2] = some [1, 2, 0, 0] := by
  constructor
  · exact (c8_amended [1] [0, 0] 5 0 0 0 []).1 (by decide)
  · have h := (c8_amended [] [] 0 4 0 0 [1, 2]).2.2 (by decide) (by decide)
    exact h.trans (by decide)

/-- C4 (counterexample).  The claim says a tail-sentinel byte-skip with
gzip encoding fails before any decompression.  The trace of the read on
such a header shows no failure at all: the sentinel is ignored (skip 0)
and the gzip chunk read proceeds. -/
theorem c4_counterexample :
    readPayloadTrace (fun _ => true) [] hdrGzRev =
      ([Act.skipLns 0, Act.gzRead 0 24 0], none) := by decide

/-- C4 (amended).  The tail sentinel is consulted only in the attached
`raw` arm of `read_payload`; with gzip (or bzip2) encoding the sentinel
is silently treated as a byte-skip of 0 and the decompressing read
proceeds with no error. -/
theorem c4_amended (h : NRRD) (fs : Line → Bool) (dir : Line) (E : Nat)
    (hdf : h.data_file = none) (hbs : h.byte_skip = some ByteSkip.rev)
    (hE : h.expectedBytesQ = some E)
    (henc : h.encoding = Encoding.rawgz ∨ h.encoding = Encoding.rawbz2) :
    readPayloadTrace fs dir h =
      ([Act.skipLns (h.line_skip.getD 0),
        if h.encoding = Encoding.rawgz then Act.gzRead 0 E 0
        else Act.bzRead 0 E 0], none) := by
  rcases henc with henc | henc <;> cases hls : h.line_skip <;>
    simp [readPayloadTrace, hE, hdf, hbs, henc, hls, ByteSkip.toSkip]

/-- C4 (witness): the amended theorem at concrete gzip and bzip2 headers
with the tail sentinel. -/
theorem c4_witness :
    readPayloadTrace (fun _ => false) ['d'] hdrGzRev =
      ([Act.skipLns 0, Act.gzRead 0 24 0], none) ∧
    readPayloadTrace (fun _ => false) ['d'] hdrBzRev =
      ([Act.skipLns 0, Act.bzRead 0 24 0], none) := by
  constructor
  · have h := c4_amended hdrGzRev (fun _ => false) ['d'] 24 rfl rfl
      (by decide) (Or.inl rfl)
    exact h.trans (by decide)
  · have h := c4_amended hdrBzRev (fun _ => false) ['d'] 24 rfl rfl
      (by decide) (Or.inr rfl)
    exact h.trans (by decide)

theorem existenceChecks_all_exist (fs : Line → Bool) :
    ∀ ps : List Line, (∀ p ∈ ps, fs p = true) →
      existenceChecks fs ps = (ps.map Act.checkExists, true) := by
  intro ps
  induction ps with
  | nil => intro _; rfl
  | cons p t ih =>
    intro h
    rw [existenceChecks, if_pos (h p (by simp)),
      ih (fun q hq => h q (by simp [hq]))]
    rfl

theorem existenceChecks_acts (fs : Line → Bool) :
    ∀ ps : List Line, ∀ a ∈ (existenceChecks fs ps).1,
      ∃ q, a = Act.checkExists q := by
  intro ps
  induction ps with
  | nil => intro a ha; simp [existenceChecks] at ha
  | cons p t ih =>
    intro a ha
    rw [existenceChecks] at ha
    by_cases hp : fs p
    · rw [if_pos hp] at ha
      rcases List.mem_cons.mp ha with rfl | hmem
      · exact ⟨p, rfl⟩
      · exact ih a hmem
    · rw [if_neg hp] at ha
      rcases List.mem_cons.mp ha with rfl | hmem
      · exact ⟨p, rfl⟩
      · exact absurd hmem (List.not_mem_nil a)

theorem perFileReads_supported (e : Encoding)
    (he : e = Encoding.raw ∨ e = Encoding.rawgz ∨ e = Encoding.rawbz2)
    (ls bskip bpf : Nat) :
    ∀ (ps : List Line) (i : Nat),
      perFileReads e ls bskip bpf i ps =
        ((ps.enumFrom i).bind (fun q =>
          [Act.openFile q.2, Act.skipLns ls,
            mkAct e (q.1 * bpf) bpf bskip]), none) := by
  have hact : ∀ off len skip, encAct e off len skip =
      some (mkAct e off len skip) := by
    rcases he with rfl | rfl | rfl <;> intro off len skip <;> rfl
  intro ps
  induction ps with
  | nil => intro i; rfl
  | cons p t ih =>
    intro i
    rw [perFileReads, hact, ih (i + 1), List.enumFrom_cons]
    simp

/-- C3.  For a detached payload: (failure half) whenever the number of
resolved files does not divide the total byte count
`n_elements * element_size`, the read fails, and the only actions
performed before the failure are existence checks — no file is opened;
(success half) when every file exists, the count divides the total and
the encoding is supported, the trace is one equal-size chunk read per
file, in path order, at offset `i * (E / N)` of the single destination
buffer, and the `N` chunks exactly cover the `E`-byte buffer. -/
theorem c3_read_payload (h : NRRD) (df : DataFile) (fs : Line → Bool)
    (dir : Line) (es : Nat) (hdf : h.data_file = some df)
    (hes : h.elementSizeQ = some es) :
    (¬ ((df.paths.map (fun p => resolvePath dir p)).length ∣
        h.nElements * es) →
      (readPayloadTrace fs dir h).2.isSome = true ∧
      ∀ a ∈ (readPayloadTrace fs dir h).1, ∃ p, a = Act.checkExists p) ∧
    ((∀ p ∈ df.paths.map (fun p => resolvePath dir p), fs p = true) →
      0 < (df.paths.map (fun p => resolvePath dir p)).length →
      ((df.paths.map (fun p => resolvePath dir p)).length ∣
        h.nElements * es) →
      0 < h.nElements * es →
      (h.encoding = Encoding.raw ∨ h.encoding = Encoding.rawgz ∨
        h.encoding = Encoding.rawbz2) →
      readPayloadTrace fs dir h =
        ((df.paths.map (fun p => resolvePath dir p)).map Act.checkExists ++
          ((df.paths.map (fun p => resolvePath dir p)).enum.bind (fun q =>
            [Act.openFile q.2, Act.skipLns (h.line_skip.getD 0),
              mkAct h.encoding
                (q.1 * (h.nElements * es /
                  (df.paths.map (fun p => resolvePath dir p)).length))
                (h.nElements * es /
                  (df.paths.map (fun p => resolvePath dir p)).length)
                ((h.byte_skip.map ByteSkip.toSkip).getD 0)])), none) ∧
      (df.paths.map (fun p => resolvePath dir p)).length *
        (h.nElements * es /
          (df.paths.map (fun p => resolvePath dir p)).length) =
        h.nElements * es) := by
  have hE : h.expectedBytesQ = some (h.nElements * es) := by
    rw [NRRD.expectedBytesQ, hes]
    rfl
  constructor
  · intro hndvd
    simp only [readPayloadTrace, hE, hdf]
    by_cases hec : (existenceChecks fs
        (df.paths.map (fun p => resolvePath dir p))).2
    · simp only [hec, Bool.not_true, Bool.false_eq_true, if_false]
      by_cases hn0 : (df.paths.map (fun p => resolvePath dir p)).length = 0
      · rw [if_pos hn0]
        exact ⟨rfl, existenceChecks_acts fs _⟩
      · have hmod : ¬ h.nElements * es %
            (df.paths.map (fun p => resolvePath dir p)).length = 0 := by
          intro h0
          exact hndvd (Nat.dvd_iff_mod_eq_zero.mpr h0)
        rw [if_neg hn0, if_pos hmod]
        exact ⟨rfl, existenceChecks_acts fs _⟩
    · have hec' : (existenceChecks fs
          (df.paths.map (fun p => resolvePath dir p))).2 = false := by
        simpa only [Bool.not_eq_true] using hec
      simp only [hec', Bool.not_false, if_true]
      exact ⟨rfl, existenceChecks_acts fs _⟩
  · intro hall hN hdvd hEpos hsup
    have hecall := existenceChecks_all_exist fs
      (df.paths.map (fun p => resolvePath dir p)) hall
    have hmod0 : h.nElements * es %
        (df.paths.map (fun p => resolvePath dir p)).length = 0 :=
      Nat.dvd_iff_mod_eq_zero.mp hdvd
    have hbpf : 0 < h.nElements * es /
        (df.paths.map (fun p => resolvePath dir p)).length :=
      Nat.div_pos (Nat.le_of_dvd hEpos hdvd) hN
    refine ⟨?_, Nat.mul_div_cancel' hdvd⟩
    simp only [readPayloadTrace, hE, hdf, hecall, Bool.not_true,
      Bool.false_eq_true, if_false]
    rw [if_neg (by omega), if_neg (by simpa only [ne_eq, not_not] using hmod0),
      if_neg (by omega), perFileReads_supported h.encoding hsup _ _ _ _ 0]
    rfl

/-- C3 (witness): the theorem's success half at the concrete two-file
header — existence checks first, then one 2-byte chunk per file at
offsets 0 and 2 of the 4-byte buffer, in path order, with no failure. -/
theorem c3_witness :
    readPayloadTrace (fun _ => true) ['d'] hdrDetached2 =
      ([Act.checkExists "d/a.raw".toList, Act.checkExists "d/b.raw".toList,
        Act.openFile "d/a.raw".toList, Act.skipLns 0, Act.rawRead 0 2 0,
        Act.openFile "d/b.raw".toList, Act.skipLns 0, Act.rawRead 2 2 0],
        none) := by
  have h := (c3_read_payload hdrDetached2
    (DataFile.FileList none ["a.raw".toList, "b.raw".toList])
    (fun _ => true) ['d'] 1 rfl rfl).2
    (by decide) (by decide) (by decide) (by decide) (Or.inl rfl)
  exact h.1.trans (by decide)

theorem fmatches_pat {α : Type} (d : FieldDef α) (p x : Line)
    (hp : p ∈ d.patterns) : fmatches d (p ++ x) = true := by
  rw [fmatches, List.any_eq_true]
  exact ⟨p, hp, isPrefixOf_append_self p x⟩

theorem fieldIdx_head (p : Line) (ps : List Line) (x : Line) :
    fieldIdx (p :: ps) (p ++ x) = some x := by
  rw [fieldIdx, findAfter_append_self]

theorem readHeaderDef_nil {α : Type} (d : FieldDef α) :
    readHeaderDef d [] = some (none, []) := rfl

theorem readHeaderDef_cons_head {α : Type} (d : FieldDef α) (l : Line)
    (ls : List Line) (v : α) (hm : fmatches d l = true)
    (hv : d.fromStr l = some v) :
    readHeaderDef d (l :: ls) = some (some v, ls) := by
  have hfi : (l :: ls).findIdx? (fun l => fmatches d l) = some 0 := by
    rw [List.findIdx?, if_pos hm]
  rw [readHeaderDef, hfi]
  simp [hv]

theorem expectDef_cons_head {α : Type} (d : FieldDef α) (l : Line)
    (ls : List Line) (v : α) (hm : fmatches d l = true)
    (hv : d.fromStr l = some v) :
    expectDef d (l :: ls) = some (v, ls) := by
  rw [expectDef, readHeaderDef_cons_head d l ls v hm hv]

theorem bindField_some_nil {α : Type} (d : FieldDef α)
    (set : NRRD → Option α → NRRD) (h : NRRD) :
    bindField d set (some (h, [])) = some (set h none, []) := by
  rw [bindField, readHeaderDef_nil]

theorem mem_decRepr_isDigit (n : Nat) (c : Char) (hc : c ∈ decRepr n) :
    c.isDigit = true := by
  have := decRepr_all_digit n
  rw [List.all_eq_true] at this
  exact this c hc

theorem trim_decRepr (n : Nat) : trimChars (decRepr n) = decRepr n :=
  trimChars_eq_self_of_all _
    (fun c hc => nonWS_of_isDigit c (mem_decRepr_isDigit n c hc))

theorem magicFromStr_display (m : Nat) (hm : m < 256) :
    magicFromStr (magicPat ++ ("000".toList ++ decRepr m)) = some m := by
  rw [magicFromStr, fieldIdx_head]
  show parseNatLt 256 (trimChars ("000".toList ++ decRepr m)) = some m
  have hall : ∀ c ∈ "000".toList ++ decRepr m, c.isDigit = true := by
    intro c hc
    rcases List.mem_append.mp hc with hc | hc
    · have hc0 : c = '0' := by
        have h000 : ("000".toList : List Char) = ['0', '0', '0'] := rfl
        rw [h000] at hc
        simpa using hc
      subst hc0
      decide
    · exact mem_decRepr_isDigit m c hc
  rw [trimChars_eq_self_of_all _
    (fun c hc => nonWS_of_isDigit c (hall c hc))]
  have hval : decVal ("000".toList ++ decRepr m) = m := by
    show decVal ('0' :: '0' :: '0' :: decRepr m) = m
    have hz : ∀ l : Line, decVal ('0' :: l) = decVal l := fun l => rfl
    rw [hz, hz, hz, decVal_decRepr]
  rw [parseNatLt, if_pos ?_, hval]
  refine ⟨by simp [decRepr_ne_nil], ?_, ?_⟩
  · rw [List.all_eq_true]
    exact hall
  · rw [hval]
    exact hm

theorem dimensionFromStr_display (d : Nat) (hd : d < 2 ^ 64) :
    dimensionFromStr (dimensionPat ++ decRepr d) = some d := by
  rw [dimensionFromStr, fieldIdx_head]
  show parseNatLt (2 ^ 64) (trimChars (decRepr d)) = some d
  rw [trim_decRepr, parseNatLt_decRepr _ _ hd]

theorem blockSizeFromStr_display (b : Nat) (hb : b < 2 ^ 64) :
    blockSizeFromStr (blockSizePat1 ++ decRepr b) = some b := by
  rw [blockSizeFromStr, fieldIdx_head]
  show parseNatLt (2 ^ 64) (trimChars (decRepr b)) = some b
  rw [trim_decRepr, parseNatLt_decRepr _ _ hb]

theorem dtypeFromStr_display (t : DType) :
    dtypeFromStr (typePat ++ dtypeToken t) = some t := by
  cases t <;> decide

theorem encodingFromStr_display (e : Encoding) :
    encodingFromStr (encodingPat ++ encodingToken e) = some e := by
  cases e <;> decide

theorem endianFromStr_display (en : Endian) :
    endianFromStr (endianPat ++ endianToken en) = some en := by
  cases en <;> decide

theorem parseSizes_map_decRepr (sz : List Nat)
    (hsz : ∀ s ∈ sz, 0 < s ∧ s < 2 ^ 64) :
    parseSizes (sz.map decRepr) = some sz := by
  induction sz with
  | nil => rfl
  | cons s t ih =>
    obtain ⟨hpos, hlt⟩ := hsz s (by simp)
    rw [List.map_cons, parseSizes, parseNatLt_decRepr _ _ hlt,
      ih (fun q hq => hsz q (by simp [hq]))]
    show (if 0 < s then some (s :: t) else none) = some (s :: t)
    rw [if_pos hpos]

theorem sizesFromStr_display (sz : List Nat)
    (hsz : ∀ s ∈ sz, 0 < s ∧ s < 2 ^ 64) :
    sizesFromStr (sizesPat ++ joinSp (sz.map decRepr)) = some sz := by
  rw [sizesFromStr, fieldIdx_head]
  show parseSizes (splitWS (trimChars (joinSp (sz.map decRepr)))) = some sz
  rw [splitWS_trim_join _ ?_, parseSizes_map_decRepr sz hsz]
  intro t ht
  rcases List.mem_map.mp ht with ⟨s, hs, rfl⟩
  exact ⟨decRepr_ne_nil s,
    fun c hc => nonWS_of_isDigit c (mem_decRepr_isDigit s c hc)⟩

set_option maxHeartbeats 1000000 in
/-- If the minimal parse of a line collection consumes every line and the
resulting record has every optional field absent, the full-field parse
returns that record with nothing left over (each optional sweep scans an
empty collection). -/
theorem fromLinesFull_of_minimal (lines : List Line) (r : NRRD)
    (hmin : fromLinesMinimal lines = some (r, []))
    (h1 : r.content = none) (h2 : r.min = none) (h3 : r.max = none)
    (h4 : r.old_min = none) (h5 : r.old_max = none)
    (h6 : r.line_skip = none) (h7 : r.byte_skip = none)
    (h8 : r.sample_units = none) (h9 : r.spacings = none)
    (h10 : r.thicknesses = none) (h11 : r.axis_mins = none)
    (h12 : r.axis_maxs = none) (h13 : r.centerings = none)
    (h14 : r.labels = none) (h15 : r.units = none) (h16 : r.kinds = none)
    (h17 : r.space = none) (h18 : r.space_dimension = none)
    (h19 : r.space_units = none) (h20 : r.space_origin = none)
    (h21 : r.space_directions = none) (h22 : r.data_file = none)
    (h23 : r.key_vals = []) (h24 : r.comments = []) :
    fromLinesFull lines = some (r, []) := by
  obtain ⟨f1, f2, f3, f4, f5, f6, g1, g2, g3, g4, g5, g22, g6, g7, g8, fsz,
    g9, g10, g11, g12, g13, g14, g15, g16, g17, g18, g19, g20, g21, g23,
    g24⟩ := r
  simp only at h1 h2 h3 h4 h5 h6 h7 h8 h9 h10 h11 h12 h13 h14 h15 h16 h17 h18 h19 h20 h21 h22 h23 h24
  subst h1 h2 h3 h4 h5 h6 h7 h8 h9 h10 h11 h12 h13 h14 h15 h16 h17 h18 h19 h20 h21 h22 h23 h24
  delta fromLinesFull
  rw [hmin]
  simp only [bindField_some_nil]
  rfl

/-- C1.  For every header record with the minimal mandatory field set
(magic, dimension, type, encoding, endian, sizes, plus block-size exactly
when the type is `block`) and no unknown fields, serializing, parsing the
text with the full-field assembler (which consumes every line), and
serializing again reproduces the first serialization exactly; indeed the
parse returns the record itself. -/
theorem c1_round_trip (m d : Nat) (t : DType) (bs : Option Nat)
    (e : Encoding) (en : Endian) (sz : List Nat)
    (hm : m < 256) (hd : d < 2 ^ 64)
    (hblock : bs.isSome ↔ t = DType.block)
    (hbsb : ∀ b, bs = some b → b < 2 ^ 64)
    (hsz : ∀ s ∈ sz, 0 < s ∧ s < 2 ^ 64) :
    fromLinesFull (serializeLines (mkMinimalNRRD m d t bs e en sz)) =
      some (mkMinimalNRRD m d t bs e en sz, []) ∧
    (fromLinesFull (serializeLines (mkMinimalNRRD m d t bs e en sz))).map
      (fun p => serializeLines p.1) =
      some (serializeLines (mkMinimalNRRD m d t bs e en sz)) := by
  have s1 : ∀ rest, expectDef magicDef
      ((magicPat ++ '0' :: '0' :: '0' :: decRepr m) :: rest) =
        some (m, rest) :=
    fun rest => expectDef_cons_head _ _ _ _
      (fmatches_pat magicDef magicPat _ (by simp [magicDef]))
      (magicFromStr_display m hm)
  have s2 : ∀ rest, expectDef dimensionDef
      ((dimensionPat ++ decRepr d) :: rest) = some (d, rest) :=
    fun rest => expectDef_cons_head _ _ _ _
      (fmatches_pat dimensionDef dimensionPat _ (by simp [dimensionDef]))
      (dimensionFromStr_display d hd)
  have s3 : ∀ rest, expectDef dtypeDef
      ((typePat ++ dtypeToken t) :: rest) = some (t, rest) :=
    fun rest => expectDef_cons_head _ _ _ _
      (fmatches_pat dtypeDef typePat _ (by simp [dtypeDef]))
      (dtypeFromStr_display t)
  have s4 : ∀ rest, expectDef encodingDef
      ((encodingPat ++ encodingToken e) :: rest) = some (e, rest) :=
    fun rest => expectDef_cons_head _ _ _ _
      (fmatches_pat encodingDef encodingPat _ (by simp [encodingDef]))
      (encodingFromStr_display e)
  have s5 : ∀ rest, expectDef endianDef
      ((endianPat ++ endianToken en) :: rest) = some (en, rest) :=
    fun rest => expectDef_cons_head _ _ _ _
      (fmatches_pat endianDef endianPat _ (by simp [endianDef]))
      (endianFromStr_display en)
  have s6 : ∀ rest, expectDef sizesDef
      ((sizesPat ++ joinSp (sz.map decRepr)) :: rest) = some (sz, rest) :=
    fun rest => expectDef_cons_head _ _ _ _
      (fmatches_pat sizesDef sizesPat _ (by simp [sizesDef]))
      (sizesFromStr_display sz hsz)
  have hmain : fromLinesFull (serializeLines (mkMinimalNRRD m d t bs e en sz)) =
      some (mkMinimalNRRD m d t bs e en sz, []) := by
    cases hbs : bs with
    | none =>
      have ht : ¬ t = DType.block := by
        rw [hbs] at hblock
        simpa using hblock
      have hser : serializeLines (mkMinimalNRRD m d t none e en sz) =
          (magicPat ++ ("000".toList ++ decRepr m)) ::
          (dimensionPat ++ decRepr d) ::
          (typePat ++ dtypeToken t) ::
          (encodingPat ++ encodingToken e) ::
          (endianPat ++ endianToken en) ::
          [sizesPat ++ joinSp (sz.map decRepr)] := by
        simp [serializeLines, mkMinimalNRRD, optRaw, sortKV]
      have hminimal : fromLinesMinimal
          ((magicPat ++ ("000".toList ++ decRepr m)) ::
          (dimensionPat ++ decRepr d) ::
          (typePat ++ dtypeToken t) ::
          (encodingPat ++ encodingToken e) ::
          (endianPat ++ endianToken en) ::
          [sizesPat ++ joinSp (sz.map decRepr)]) =
          some (mkMinimalNRRD m d t none e en sz, []) := by
        simp [fromLinesMinimal, s1, s2, s3, s4, s5, s6, ht, mkMinimalNRRD]
      rw [hser]
      exact fromLinesFull_of_minimal _ _ hminimal rfl rfl rfl rfl rfl rfl rfl
        rfl rfl rfl rfl rfl rfl rfl rfl rfl rfl rfl rfl rfl rfl rfl rfl rfl
    | some b =>
      have ht : t = DType.block := by
        rw [hbs] at hblock
        simpa using hblock
      subst ht
      have sB : ∀ rest, expectDef blockSizeDef
          ((blockSizePat1 ++ decRepr b) :: rest) = some (b, rest) :=
        fun rest => expectDef_cons_head _ _ _ _
          (fmatches_pat blockSizeDef blockSizePat1 _
            (by simp [blockSizeDef]))
          (blockSizeFromStr_display b (hbsb b hbs))
      have hser : serializeLines
            (mkMinimalNRRD m d DType.block (some b) e en sz) =
          (magicPat ++ ("000".toList ++ decRepr m)) ::
          (dimensionPat ++ decRepr d) ::
          (typePat ++ dtypeToken DType.block) ::
          (blockSizePat1 ++ decRepr b) ::
          (encodingPat ++ encodingToken e) ::
          (endianPat ++ endianToken en) ::
          [sizesPat ++ joinSp (sz.map decRepr)] := by
        simp [serializeLines, mkMinimalNRRD, optRaw, sortKV]
      have hminimal : fromLinesMinimal
          ((magicPat ++ ("000".toList ++ decRepr m)) ::
          (dimensionPat ++ decRepr d) ::
          (typePat ++ dtypeToken DType.block) ::
          (blockSizePat1 ++ decRepr b) ::
          (encodingPat ++ encodingToken e) ::
          (endianPat ++ endianToken en) ::
          [sizesPat ++ joinSp (sz.map decRepr)]) =
          some (mkMinimalNRRD m d DType.block (some b) e en sz, []) := by
        simp [fromLinesMinimal, s1, s2, s3, s4, s5, s6, sB, mkMinimalNRRD]
      rw [hser]
      exact fromLinesFull_of_minimal _ _ hminimal rfl rfl rfl rfl rfl rfl rfl
        rfl rfl rfl rfl rfl rfl rfl rfl rfl rfl rfl rfl rfl rfl rfl rfl rfl
  exact ⟨hmain, by rw [hmain]; rfl⟩

/-- C1 (witness): the round trip at a concrete minimal header
(uint8, sizes 2×3×4, raw encoding). -/
theorem c1_witness :
    fromLinesFull (serializeLines (mkMinimalNRRD 4 3 DType.uint8 none
      Encoding.raw Endian.Little [2, 3, 4])) =
      some (mkMinimalNRRD 4 3 DType.uint8 none Encoding.raw Endian.Little
        [2, 3, 4], []) :=
  (c1_round_trip 4 3 DType.uint8 none Encoding.raw Endian.Little [2, 3, 4]
    (by norm_num) (by norm_num) (by simp) (by simp) (by decide)).1

end NrrdRs
